import Mathlib

set_option maxHeartbeats 1000000

/-!
Shallow embedding of `src/comp/metadata/tydecode.rs`, the metadata type
decoder: a recursive-descent decoder over a compact byte encoding of
compiler types, with a backreference cache keyed by
(crate number, byte offset, byte length).

Bytes are modelled as `Nat` character codes.  Rust task failure (a failed
`assert`, a bare `fail`, a non-exhaustive `alt`, or an out-of-bounds vector
index) is modelled as `Except.error Err.fault`.  The mutually recursive
type parser carries an explicit fuel parameter; `Except.error Err.fuel`
marks fuel exhaustion and is used to reason about divergence (the source
has no fuel: a run that exhausts every fuel bound corresponds to a
non-terminating run of the source).
-/

namespace TyDecode

/-- Failure modes of a decode step: `fault` models Rust task failure
(failed `assert`, `fail`, non-exhaustive `alt`, out-of-bounds index);
`fuel` marks exhaustion of the recursion budget of this embedding. -/
inductive Err where
  | fault
  | fuel
deriving DecidableEq

/-- `ast::def_id`: `{crate: int, node: int}`. -/
structure DefId where
  crate : Int
  node : Int
deriving DecidableEq

/-- Ownership kind attached to a type parameter (`kind_unique`,
`kind_shared`, `kind_pinned`). -/
inductive Kind where
  | unique
  | shared
  | pinned
deriving DecidableEq

/-- `ast` mutability: `imm`, `mut`, `maybe_mut`. -/
inductive Mut where
  | imm
  | mut
  | maybe_mut
deriving DecidableEq

/-- Machine numeric types (`ast::ty_u8` … `ast::ty_f64`). -/
inductive MachTy where
  | u8
  | u16
  | u32
  | u64
  | i8
  | i16
  | i32
  | i64
  | f32
  | f64
deriving DecidableEq

/-- Native ABIs (`ast::native_abi_*`). -/
inductive Abi where
  | rust
  | intrinsic
  | cdecl
  | llvm
  | x86stdcall
deriving DecidableEq

/-- Argument passing mode: `ty::mo_val` or `ty::mo_alias(mutable?)`. -/
inductive Mode where
  | val
  | alias (mutbl : Bool)
deriving DecidableEq

/-- `ast::controlflow`: `noreturn` or `return`. -/
inductive ControlFlow where
  | noreturn
  | ret
deriving DecidableEq

/-- Function prototype: `ast::proto_fn`, `ast::proto_iter`,
`ast::proto_block`. -/
inductive Proto where
  | fn
  | iter
  | block
deriving DecidableEq

/-- `ast::path`, spans dropped; the `types` component is always empty in
this decoder, so it is omitted. -/
structure Path where
  global : Bool
  idents : List String
deriving DecidableEq

/-- `ast::constr_arg_general_[T]`: `carg_base` (wildcard) or
`carg_ident`.  The literal-argument case is unimplemented in the source
(it `fail`s), so it has no constructor here. -/
inductive ConstrArg (T : Type) where
  | base
  | ident (a : T)
deriving DecidableEq

/-- `ty::constr_general[T]`: path, arguments, resolved definition
(spans dropped). -/
structure ConstrGen (T : Type) where
  path : Path
  args : List (ConstrArg T)
  id : DefId
deriving DecidableEq

/-- `ty::constr` (function/value constraints, args are arg indices). -/
abbrev Constr := ConstrGen Nat

/-- `ty::type_constr` (type constraints, args are paths). -/
abbrev TyConstr := ConstrGen Path

/-- `ty::t`, structurally.  Where the source stores an `mt` record
`{ty, mut}`, the constructor takes the type and the mutability in that
order.  `rec` is renamed `record` (`Ty.rec` is the recursor). -/
inductive Ty where
  | nil
  | bot
  | bool
  | int
  | uint
  | float
  | mach (m : MachTy)
  | char
  | str
  | istr
  | tag (d : DefId) (params : List Ty)
  | param (n : Nat) (k : Kind)
  | box (t : Ty) (m : Mut)
  | ptr (t : Ty) (m : Mut)
  | vec (t : Ty) (m : Mut)
  | ivec (t : Ty) (m : Mut)
  | task
  | port (t : Ty)
  | chan (t : Ty)
  | record (fields : List (String × Ty × Mut))
  | fn (p : Proto) (args : List (Mode × Ty)) (rt : Ty) (cf : ControlFlow) (cs : List Constr)
  | native_fn (abi : Abi) (args : List (Mode × Ty)) (rt : Ty)
  | obj (methods : List (Proto × String × List (Mode × Ty) × Ty × ControlFlow × List Constr))
  | res (d : DefId) (inner : Ty) (params : List Ty)
  | var (v : Int)
  | native (d : DefId)
  | type
  | constr_ty (t : Ty) (cs : List TyConstr)

/-- `ty_or_bang`. -/
inductive TyOrBang where
  | a_ty (t : Ty)
  | a_bang

/-- `pstate`: the cursor.  `data` is the byte buffer, `crate` the crate
number, `pos` the mutable scan position, `len` the declared length. -/
structure PState where
  data : List Nat
  crate : Int
  pos : Nat
  len : Nat
deriving DecidableEq

/-- `str_def`: callback translating a definition string to a def id. -/
abbrev StrDef := String → DefId

/-- Key of the backreference cache `tcx.rcache`:
`{cnum: int, pos: uint, len: uint}`. -/
abbrev RKey := Int × Nat × Nat

/-- The backreference cache, an association list; lookup takes the first
matching binding, insertion prepends (the hashmap insert of the source
replaces an existing binding, which prepend-plus-first-match models). -/
abbrev Cache := List (RKey × Ty)

/-- Lookup in the backreference cache (`rcache.find`). -/
def rcacheFind (c : Cache) (k : RKey) : Option Ty :=
  match c with
  | [] => none
  | (k', t) :: rest => if k' = k then some t else rcacheFind rest k

/-- Insertion into the backreference cache (`rcache.insert`). -/
def rcacheInsert (c : Cache) (k : RKey) (t : Ty) : Cache := (k, t) :: c

/-- `peek`: `ret st.data.(st.pos)` — out-of-bounds indexing faults. -/
def peek (st : PState) : Except Err Nat :=
  match st.data.get? st.pos with
  | some b => .ok b
  | none => .error .fault

/-- `next`: read the current byte and advance the position by one. -/
def next (st : PState) : Except Err (Nat × PState) :=
  match peek st with
  | .ok b => .ok (b, { st with pos := st.pos + 1 })
  | .error e => .error e

/-- Iteration budget for the bounded scanning loops: each iteration
consumes at least one byte, so `remaining bytes + 1` steps always
suffice; the bound is computed from the state, never observable. -/
def remFuel (st : PState) : Nat := (st.data.length - st.pos) + 1

/-- The empty accumulator string. -/
def emptyS : String := ""

/-- Loop body of `parse_ident_`: append bytes as characters while the
`is_last` predicate rejects the next unconsumed byte; the terminating
byte is not consumed. -/
def parseIdentCore (isLast : Nat → Bool) : Nat → PState → String → Except Err (String × PState)
  | 0, _, _ => .error .fuel
  | k + 1, st, acc =>
    match peek st with
    | .error e => .error e
    | .ok c =>
      if isLast c then .ok (acc, st)
      else parseIdentCore isLast k { st with pos := st.pos + 1 } (acc.push (Char.ofNat c))

/-- `parse_ident_`: delimiter-terminated identifier. -/
def parse_ident_ (isLast : Nat → Bool) (st : PState) : Except Err (String × PState) :=
  parseIdentCore isLast (remFuel st) st emptyS

/-- Modulus of the machine word.  The source accumulates `parse_int`
in `int` and `parse_hex` in `uint`, machine-word-sized integers that
wrap on overflow; the model fixes the word at 64 bits. -/
def wordSize : Nat := 2 ^ 64

/-- Two's-complement wrap of a signed machine-word (`int`) value into
`[-2^63, 2^63)`. -/
def wrapInt (x : Int) : Int := (x + 2 ^ 63) % 2 ^ 64 - 2 ^ 63

/-- Loop body of `parse_int`: maximal run of ASCII decimal digits,
accumulated base 10 into an `int`; both the multiplication and the
addition wrap at the machine word. -/
def parseIntCore : Nat → PState → Int → Except Err (Int × PState)
  | 0, _, _ => .error .fuel
  | k + 1, st, n =>
    match peek st with
    | .error e => .error e
    | .ok cur =>
      if cur < 48 ∨ 57 < cur then .ok (n, st)
      else
        parseIntCore k { st with pos := st.pos + 1 }
          (wrapInt (wrapInt (n * 10) + ((cur : Int) - 48)))

/-- `parse_int`. -/
def parse_int (st : PState) : Except Err (Int × PState) :=
  parseIntCore (remFuel st) st 0

/-- Loop body of `parse_hex`: maximal run of ASCII hex digits (`0`-`9`,
lowercase `a`-`f` only), accumulated base 16 into a `uint`; both the
multiplication and the addition wrap at the machine word. -/
def parseHexCore : Nat → PState → Nat → Except Err (Nat × PState)
  | 0, _, _ => .error .fuel
  | k + 1, st, n =>
    match peek st with
    | .error e => .error e
    | .ok cur =>
      if (cur < 48 ∨ 57 < cur) ∧ (cur < 97 ∨ 102 < cur) then .ok (n, st)
      else
        parseHexCore k { st with pos := st.pos + 1 }
          (if 48 ≤ cur ∧ cur ≤ 57 then (n * 16 % wordSize + (cur - 48)) % wordSize
           else (n * 16 % wordSize + (10 + (cur - 97))) % wordSize)

/-- `parse_hex`. -/
def parse_hex (st : PState) : Except Err (Nat × PState) :=
  parseHexCore (remFuel st) st 0

/-- Terminator predicate of path segments: `(` or `:`. -/
def isPathLast (c : Nat) : Bool := c = 40 || c = 58

/-- Loop body of `parse_path`: on `:` skip two bytes (a `::` separator),
on `(` finish, otherwise read one more segment. -/
def parsePathCore : Nat → PState → List String → Except Err (Path × PState)
  | 0, _, _ => .error .fuel
  | k + 1, st, idents =>
    match peek st with
    | .error e => .error e
    | .ok c =>
      if c = 58 then
        match next st with
        | .error e => .error e
        | .ok (_, st1) =>
          match next st1 with
          | .error e => .error e
          | .ok (_, st2) => parsePathCore k st2 idents
      else if c = 40 then .ok (⟨false, idents⟩, st)
      else
        match parse_ident_ isPathLast st with
        | .error e => .error e
        | .ok (s, st1) => parsePathCore k st1 (idents ++ [s])

/-- `parse_path`: one segment, then the separator loop. -/
def parse_path (st : PState) : Except Err (Path × PState) :=
  match parse_ident_ isPathLast st with
  | .error e => .error e
  | .ok (s, st1) => parsePathCore (remFuel st1) st1 [s]

/-- Terminator predicate of `parse_def`: the byte `|`. -/
def isDefLast (c : Nat) : Bool := c = 124

/-- `parse_def`: bytes up to (and excluding) `|`, the `|` consumed, the
accumulated string passed to the resolver. -/
def parse_def (sd : StrDef) (st : PState) : Except Err (DefId × PState) :=
  match parse_ident_ isDefLast st with
  | .error e => .error e
  | .ok (s, st1) => .ok (sd s, { st1 with pos := st1.pos + 1 })

/-- `parse_constr_arg` (value constraints): `*` is `carg_base`; a decimal
digit `c` is `carg_ident((c as uint) - 48)`; anything else `fail`s
("Lit args are unimplemented"). -/
def parse_constr_arg (st : PState) : Except Err (ConstrArg Nat × PState) :=
  match peek st with
  | .error e => .error e
  | .ok c =>
    if c = 42 then .ok (.base, { st with pos := st.pos + 1 })
    else if 48 ≤ c ∧ c ≤ 57 then .ok (.ident (c - 48), { st with pos := st.pos + 1 })
    else .error .fault

/-- `parse_ty_constr_arg` (type constraints): `*` is `carg_base`,
otherwise a nested path. -/
def parse_ty_constr_arg (st : PState) : Except Err (ConstrArg Path × PState) :=
  match peek st with
  | .error e => .error e
  | .ok c =>
    if c = 42 then .ok (.base, { st with pos := st.pos + 1 })
    else
      match parse_path st with
      | .error e => .error e
      | .ok (p, st1) => .ok (.ident p, st1)

/-- Argument do-while loop of `parse_constr[uint]`: parse one argument,
then `next` reads the separator: `;` continues, `)` finishes, anything
else fails the `assert (ignore == ')')`. -/
def parseCArgsV : Nat → PState → List (ConstrArg Nat) → Except Err (List (ConstrArg Nat) × PState)
  | 0, _, _ => .error .fuel
  | k + 1, st, args =>
    match parse_constr_arg st with
    | .error e => .error e
    | .ok (a, st1) =>
      match next st1 with
      | .error e => .error e
      | .ok (ig, st2) =>
        if ig = 59 then parseCArgsV k st2 (args ++ [a])
        else if ig = 41 then .ok (args ++ [a], st2)
        else .error .fault

/-- `parse_constr[uint]` (the value-constraint instantiation of the
generic `parse_constr`, with `pser = parse_constr_arg`): path, `(`
(asserted), definition, argument loop. -/
def parse_constr_v (sd : StrDef) (st : PState) : Except Err (Constr × PState) :=
  match parse_path st with
  | .error e => .error e
  | .ok (pth, st1) =>
    match next st1 with
    | .error e => .error e
    | .ok (ig, st2) =>
      if ig = 40 then
        match parse_def sd st2 with
        | .error e => .error e
        | .ok (d, st3) =>
          match parseCArgsV (remFuel st3) st3 [] with
          | .error e => .error e
          | .ok (args, st4) => .ok (⟨pth, args, d⟩, st4)
      else .error .fault

/-- Argument do-while loop of `parse_constr[path]`. -/
def parseCArgsT : Nat → PState → List (ConstrArg Path) → Except Err (List (ConstrArg Path) × PState)
  | 0, _, _ => .error .fuel
  | k + 1, st, args =>
    match parse_ty_constr_arg st with
    | .error e => .error e
    | .ok (a, st1) =>
      match next st1 with
      | .error e => .error e
      | .ok (ig, st2) =>
        if ig = 59 then parseCArgsT k st2 (args ++ [a])
        else if ig = 41 then .ok (args ++ [a], st2)
        else .error .fault

/-- `parse_constr[path]` (the type-constraint instantiation, with
`pser = parse_ty_constr_arg`). -/
def parse_constr_t (sd : StrDef) (st : PState) : Except Err (TyConstr × PState) :=
  match parse_path st with
  | .error e => .error e
  | .ok (pth, st1) =>
    match next st1 with
    | .error e => .error e
    | .ok (ig, st2) =>
      if ig = 40 then
        match parse_def sd st2 with
        | .error e => .error e
        | .ok (d, st3) =>
          match parseCArgsT (remFuel st3) st3 [] with
          | .error e => .error e
          | .ok (args, st4) => .ok (⟨pth, args, d⟩, st4)
      else .error .fault

/-- Do-while loop of `parse_constrs`: consume the pending `:` or `;`,
parse one constraint, repeat while the next byte is `;`. -/
def parseConstrsLoop (sd : StrDef) : Nat → PState → List Constr → Except Err (List Constr × PState)
  | 0, _, _ => .error .fuel
  | k + 1, st, acc =>
    match next st with
    | .error e => .error e
    | .ok (_, st1) =>
      match parse_constr_v sd st1 with
      | .error e => .error e
      | .ok (one, st2) =>
        match peek st2 with
        | .error e => .error e
        | .ok c =>
          if c = 59 then parseConstrsLoop sd k st2 (acc ++ [one])
          else .ok (acc ++ [one], st2)

/-- `parse_constrs`: a leading `:` starts the list, its absence yields
the empty list with nothing consumed. -/
def parse_constrs (sd : StrDef) (st : PState) : Except Err (List Constr × PState) :=
  match peek st with
  | .error e => .error e
  | .ok c =>
    if c = 58 then parseConstrsLoop sd (remFuel st) st []
    else .ok ([], st)

/-- Do-while loop of `parse_ty_constrs`. -/
def parseTyConstrsLoop (sd : StrDef) : Nat → PState → List TyConstr → Except Err (List TyConstr × PState)
  | 0, _, _ => .error .fuel
  | k + 1, st, acc =>
    match next st with
    | .error e => .error e
    | .ok (_, st1) =>
      match parse_constr_t sd st1 with
      | .error e => .error e
      | .ok (one, st2) =>
        match peek st2 with
        | .error e => .error e
        | .ok c =>
          if c = 59 then parseTyConstrsLoop sd k st2 (acc ++ [one])
          else .ok (acc ++ [one], st2)

/-- `parse_ty_constrs`. -/
def parse_ty_constrs (sd : StrDef) (st : PState) : Except Err (List TyConstr × PState) :=
  match peek st with
  | .error e => .error e
  | .ok c =>
    if c = 58 then parseTyConstrsLoop sd (remFuel st) st []
    else .ok ([], st)

/-- ABI sub-tags of tag `N` (`r`, `i`, `c`, `l`, `s`); the `alt` of the
source has no default arm, so any other byte faults. -/
def abiOf (c : Nat) : Option Abi :=
  if c = 114 then some .rust
  else if c = 105 then some .intrinsic
  else if c = 99 then some .cdecl
  else if c = 108 then some .llvm
  else if c = 115 then some .x86stdcall
  else none

/-- Kind sub-tags of tag `p` (`u`, `s`, `p`); the source `fail`s on any
other byte. -/
def kindOf (c : Nat) : Option Kind :=
  if c = 117 then some .unique
  else if c = 115 then some .shared
  else if c = 112 then some .pinned
  else none

/-- Machine-type sub-tags of tag `M`; the `alt` has no default arm. -/
def machOf (c : Nat) : Option MachTy :=
  if c = 98 then some .u8
  else if c = 119 then some .u16
  else if c = 108 then some .u32
  else if c = 100 then some .u64
  else if c = 66 then some .i8
  else if c = 87 then some .i16
  else if c = 76 then some .i32
  else if c = 68 then some .i64
  else if c = 102 then some .f32
  else if c = 70 then some .f64
  else none

/-- Method prototype sub-tags inside tag `O` (`W` or `F`); the `alt`
has no default arm. -/
def protoOf (c : Nat) : Option Proto :=
  if c = 87 then some .iter
  else if c = 70 then some .fn
  else none

/-- Terminator predicate of record field names: the byte `=`. -/
def isEq (c : Nat) : Bool := c = 61

/-- Terminator predicate of object method names: the byte `[`. -/
def isLBracket (c : Nat) : Bool := c = 91

mutual

/-- `parse_ty`: the dispatcher.  One tag byte is consumed, then the arm
for that tag; an unknown tag byte faults.  The first argument is the
fuel of this embedding, decremented on every mutually recursive call. -/
def parse_ty (sd : StrDef) : Nat → PState → Cache → Except Err (Ty × PState × Cache)
  | 0, _, _ => .error .fuel
  | n + 1, st, cache =>
    match next st with
    | .error e => .error e
    | .ok (c, st1) =>
      match c with
      | 110 => .ok (.nil, st1, cache)
      | 122 => .ok (.bot, st1, cache)
      | 98 => .ok (.bool, st1, cache)
      | 105 => .ok (.int, st1, cache)
      | 117 => .ok (.uint, st1, cache)
      | 108 => .ok (.float, st1, cache)
      | 77 =>
        match next st1 with
        | .error e => .error e
        | .ok (c2, st2) =>
          match machOf c2 with
          | some m => .ok (.mach m, st2, cache)
          | none => .error .fault
      | 99 => .ok (.char, st1, cache)
      | 115 => .ok (.str, st1, cache)
      | 83 => .ok (.istr, st1, cache)
      | 116 =>
        match next st1 with
        | .error e => .error e
        | .ok (c2, st2) =>
          if c2 = 91 then
            match parse_def sd st2 with
            | .error e => .error e
            | .ok (d, st3) =>
              match parseTyParams sd n st3 cache [] with
              | .error e => .error e
              | .ok (params, st4, c4) => .ok (.tag d params, st4, c4)
          else .error .fault
      | 112 =>
        match next st1 with
        | .error e => .error e
        | .ok (c2, st2) =>
          match kindOf c2 with
          | some k =>
            match parse_int st2 with
            | .error e => .error e
            | .ok (i, st3) => .ok (.param i.toNat k, st3, cache)
          | none => .error .fault
      | 64 =>
        match parse_mt sd n st1 cache with
        | .error e => .error e
        | .ok ((t, m), st2, c2) => .ok (.box t m, st2, c2)
      | 42 =>
        match parse_mt sd n st1 cache with
        | .error e => .error e
        | .ok ((t, m), st2, c2) => .ok (.ptr t m, st2, c2)
      | 86 =>
        match parse_mt sd n st1 cache with
        | .error e => .error e
        | .ok ((t, m), st2, c2) => .ok (.vec t m, st2, c2)
      | 73 =>
        match parse_mt sd n st1 cache with
        | .error e => .error e
        | .ok ((t, m), st2, c2) => .ok (.ivec t m, st2, c2)
      | 97 => .ok (.task, st1, cache)
      | 80 =>
        match parse_ty sd n st1 cache with
        | .error e => .error e
        | .ok (t, st2, c2) => .ok (.port t, st2, c2)
      | 67 =>
        match parse_ty sd n st1 cache with
        | .error e => .error e
        | .ok (t, st2, c2) => .ok (.chan t, st2, c2)
      | 82 =>
        match next st1 with
        | .error e => .error e
        | .ok (c2, st2) =>
          if c2 = 91 then
            match parseRecFields sd n st2 cache [] with
            | .error e => .error e
            | .ok (fields, st3, c3) => .ok (.record fields, st3, c3)
          else .error .fault
      | 70 =>
        match parse_ty_fn sd n st1 cache with
        | .error e => .error e
        | .ok ((args, rt, cf, cs), st2, c2) => .ok (.fn .fn args rt cf cs, st2, c2)
      | 87 =>
        match parse_ty_fn sd n st1 cache with
        | .error e => .error e
        | .ok ((args, rt, cf, cs), st2, c2) => .ok (.fn .iter args rt cf cs, st2, c2)
      | 66 =>
        match parse_ty_fn sd n st1 cache with
        | .error e => .error e
        | .ok ((args, rt, cf, cs), st2, c2) => .ok (.fn .block args rt cf cs, st2, c2)
      | 78 =>
        match next st1 with
        | .error e => .error e
        | .ok (c2, st2) =>
          match abiOf c2 with
          | some abi =>
            match parse_ty_fn sd n st2 cache with
            | .error e => .error e
            | .ok ((args, rt, _, _), st3, c3) => .ok (.native_fn abi args rt, st3, c3)
          | none => .error .fault
      | 79 =>
        match next st1 with
        | .error e => .error e
        | .ok (c2, st2) =>
          if c2 = 91 then
            match parseObjMethods sd n st2 cache [] with
            | .error e => .error e
            | .ok (methods, st3, c3) => .ok (.obj methods, st3, c3)
          else .error .fault
      | 114 =>
        match next st1 with
        | .error e => .error e
        | .ok (c2, st2) =>
          if c2 = 91 then
            match parse_def sd st2 with
            | .error e => .error e
            | .ok (d, st3) =>
              match parse_ty sd n st3 cache with
              | .error e => .error e
              | .ok (inner, st4, c4) =>
                match parseTyParams sd n st4 c4 [] with
                | .error e => .error e
                | .ok (params, st5, c5) => .ok (.res d inner params, st5, c5)
          else .error .fault
      | 88 =>
        match parse_int st1 with
        | .error e => .error e
        | .ok (i, st2) => .ok (.var i, st2, cache)
      | 69 =>
        match parse_def sd st1 with
        | .error e => .error e
        | .ok (d, st2) => .ok (.native d, st2, cache)
      | 89 => .ok (.type, st1, cache)
      | 35 =>
        match parse_hex st1 with
        | .error e => .error e
        | .ok (o, st2) =>
          match next st2 with
          | .error e => .error e
          | .ok (c2, st3) =>
            if c2 = 58 then
              match parse_hex st3 with
              | .error e => .error e
              | .ok (l, st4) =>
                match next st4 with
                | .error e => .error e
                | .ok (c3, st5) =>
                  if c3 = 35 then
                    match rcacheFind cache (st.crate, o, l) with
                    | some tt => .ok (tt, st5, cache)
                    | none =>
                      match parse_ty sd n ⟨st.data, st.crate, o, l⟩ cache with
                      | .error e => .error e
                      | .ok (tt, _, c1) =>
                        .ok (tt, st5, rcacheInsert c1 (st.crate, o, l) tt)
                  else .error .fault
            else .error .fault
      | 65 =>
        match next st1 with
        | .error e => .error e
        | .ok (c2, st2) =>
          if c2 = 91 then
            match parse_ty sd n st2 cache with
            | .error e => .error e
            | .ok (tt, st3, c3) =>
              match parse_ty_constrs sd st3 with
              | .error e => .error e
              | .ok (tcs, st4) =>
                match next st4 with
                | .error e => .error e
                | .ok (c3', st5) =>
                  if c3' = 93 then .ok (.constr_ty tt tcs, st5, c3)
                  else .error .fault
          else .error .fault
      | _ => .error .fault

/-- Loop of tags `t` and `r`: type arguments until `]`, the `]`
consumed afterwards. -/
def parseTyParams (sd : StrDef) : Nat → PState → Cache → List Ty → Except Err (List Ty × PState × Cache)
  | 0, _, _, _ => .error .fuel
  | n + 1, st, cache, acc =>
    match peek st with
    | .error e => .error e
    | .ok c =>
      if c = 93 then .ok (acc, { st with pos := st.pos + 1 }, cache)
      else
        match parse_ty sd n st cache with
        | .error e => .error e
        | .ok (t, st1, c1) => parseTyParams sd n st1 c1 (acc ++ [t])

/-- Field loop of tag `R`: `name=` then a mutability-qualified type,
until `]` (consumed afterwards); there is no separator between
fields. -/
def parseRecFields (sd : StrDef) : Nat → PState → Cache → List (String × Ty × Mut) → Except Err (List (String × Ty × Mut) × PState × Cache)
  | 0, _, _, _ => .error .fuel
  | n + 1, st, cache, acc =>
    match peek st with
    | .error e => .error e
    | .ok c =>
      if c = 93 then .ok (acc, { st with pos := st.pos + 1 }, cache)
      else
        match parse_ident_ isEq st with
        | .error e => .error e
        | .ok (name, st1) =>
          match parse_mt sd n { st1 with pos := st1.pos + 1 } cache with
          | .error e => .error e
          | .ok ((t, m), st2, c2) => parseRecFields sd n st2 c2 (acc ++ [(name, t, m)])

/-- Method loop of tag `O`: prototype sub-tag, name until `[`, then a
function signature, until `]` (consumed afterwards). -/
def parseObjMethods (sd : StrDef) : Nat → PState → Cache → List (Proto × String × List (Mode × Ty) × Ty × ControlFlow × List Constr) → Except Err (List (Proto × String × List (Mode × Ty) × Ty × ControlFlow × List Constr) × PState × Cache)
  | 0, _, _, _ => .error .fuel
  | n + 1, st, cache, acc =>
    match peek st with
    | .error e => .error e
    | .ok c =>
      if c = 93 then .ok (acc, { st with pos := st.pos + 1 }, cache)
      else
        match next st with
        | .error e => .error e
        | .ok (pc, st1) =>
          match protoOf pc with
          | some proto =>
            match parse_ident_ isLBracket st1 with
            | .error e => .error e
            | .ok (name, st2) =>
              match parse_ty_fn sd n st2 cache with
              | .error e => .error e
              | .ok ((args, rt, cf, cs), st3, c3) =>
                parseObjMethods sd n st3 c3 (acc ++ [(proto, name, args, rt, cf, cs)])
          | none => .error .fault

/-- Argument loop of `parse_ty_fn`: an optional `&` (alias mode, an
optional following `m` makes the alias mutable) then one type, until
`]` (consumed afterwards). -/
def parseFnArgs (sd : StrDef) : Nat → PState → Cache → List (Mode × Ty) → Except Err (List (Mode × Ty) × PState × Cache)
  | 0, _, _, _ => .error .fuel
  | n + 1, st, cache, acc =>
    match peek st with
    | .error e => .error e
    | .ok c =>
      if c = 93 then .ok (acc, { st with pos := st.pos + 1 }, cache)
      else if c = 38 then
        match peek { st with pos := st.pos + 1 } with
        | .error e => .error e
        | .ok c2 =>
          if c2 = 109 then
            match parse_ty sd n { st with pos := st.pos + 2 } cache with
            | .error e => .error e
            | .ok (t, st1, c1) => parseFnArgs sd n st1 c1 (acc ++ [(.alias true, t)])
          else
            match parse_ty sd n { st with pos := st.pos + 1 } cache with
            | .error e => .error e
            | .ok (t, st1, c1) => parseFnArgs sd n st1 c1 (acc ++ [(.alias false, t)])
      else
        match parse_ty sd n st cache with
        | .error e => .error e
        | .ok (t, st1, c1) => parseFnArgs sd n st1 c1 (acc ++ [(.val, t)])

/-- `parse_mt`: `m` is mutable (consumed), `?` is maybe-mutable
(consumed), anything else immutable (not consumed); then one type. -/
def parse_mt (sd : StrDef) : Nat → PState → Cache → Except Err ((Ty × Mut) × PState × Cache)
  | 0, _, _ => .error .fuel
  | n + 1, st, cache =>
    match peek st with
    | .error e => .error e
    | .ok c =>
      if c = 109 then
        match parse_ty sd n { st with pos := st.pos + 1 } cache with
        | .error e => .error e
        | .ok (t, st1, c1) => .ok ((t, .mut), st1, c1)
      else if c = 63 then
        match parse_ty sd n { st with pos := st.pos + 1 } cache with
        | .error e => .error e
        | .ok (t, st1, c1) => .ok ((t, .maybe_mut), st1, c1)
      else
        match parse_ty sd n st cache with
        | .error e => .error e
        | .ok (t, st1, c1) => .ok ((t, .imm), st1, c1)

/-- `parse_ty_or_bang`: `!` (consumed) or one type. -/
def parse_ty_or_bang (sd : StrDef) : Nat → PState → Cache → Except Err (TyOrBang × PState × Cache)
  | 0, _, _ => .error .fuel
  | n + 1, st, cache =>
    match peek st with
    | .error e => .error e
    | .ok c =>
      if c = 33 then .ok (.a_bang, { st with pos := st.pos + 1 }, cache)
      else
        match parse_ty sd n st cache with
        | .error e => .error e
        | .ok (t, st1, c1) => .ok (.a_ty t, st1, c1)

/-- `parse_ty_fn`: `[` (asserted), argument loop, constraint list, then
`!` (never returns, return type bottom) or an ordinary return type. -/
def parse_ty_fn (sd : StrDef) : Nat → PState → Cache → Except Err ((List (Mode × Ty) × Ty × ControlFlow × List Constr) × PState × Cache)
  | 0, _, _ => .error .fuel
  | n + 1, st, cache =>
    match next st with
    | .error e => .error e
    | .ok (c, st1) =>
      if c = 91 then
        match parseFnArgs sd n st1 cache [] with
        | .error e => .error e
        | .ok (inputs, st2, c2) =>
          match parse_constrs sd st2 with
          | .error e => .error e
          | .ok (cs, st3) =>
            match parse_ty_or_bang sd n st3 c2 with
            | .error e => .error e
            | .ok (.a_bang, st4, c4) => .ok ((inputs, .bot, .noreturn, cs), st4, c4)
            | .ok (.a_ty t, st4, c4) => .ok ((inputs, t, .ret, cs), st4, c4)
      else .error .fault

end

/-- `parse_ty_data`: the entry point builds a cursor from the buffer,
crate number, start position and length, and runs the dispatcher once.
(The type context is threaded explicitly as the cache argument.) -/
def parse_ty_data (data : List Nat) (crate_num : Int) (pos : Nat) (len : Nat)
    (sd : StrDef) (cache : Cache) (fuelN : Nat) : Except Err (Ty × PState × Cache) :=
  parse_ty sd fuelN ⟨data, crate_num, pos, len⟩ cache

/-- Modelled from the spec: `uint::parse_buf(_, 10)` of the standard
library is not under `src/`; the spec says the two slices around the
colon are "each parsed as base-10 unsigned integers", so this folds the
digit bytes in base 10. -/
def parse_buf (buf : List Nat) : Nat :=
  buf.foldl (fun a b => a * 10 + (b - 48)) 0

/-- `parse_def_id`: find the first `:`, fault if there is none, parse
the slice before it and the slice after it in base 10. -/
def parse_def_id (buf : List Nat) : Except Err DefId :=
  let len := buf.length
  let colon_idx := buf.findIdx (fun b => b = 58)
  if colon_idx = len then .error .fault
  else
    .ok ⟨(parse_buf (buf.take colon_idx) : Int),
         (parse_buf (buf.drop (colon_idx + 1)) : Int)⟩

/-! ### Specification-side helpers and concrete instances -/

/-- ASCII decimal digit. -/
def isDigit10 (b : Nat) : Bool := 48 ≤ b && b ≤ 57

/-- ASCII hexadecimal digit, lowercase letters only. -/
def isHexDigit (b : Nat) : Bool := (48 ≤ b && b ≤ 57) || (97 ≤ b && b ≤ 102)

/-- Base-10 value of a digit run, folded exactly as the decoder folds:
in signed machine-word arithmetic, wrapping on overflow. -/
def decValue (ds : List Nat) : Int :=
  ds.foldl (fun (a : Int) (b : Nat) => wrapInt (wrapInt (a * 10) + ((b : Int) - 48))) 0

/-- Base-16 value of a hex-digit run, folded exactly as the decoder
folds: in unsigned machine-word arithmetic, wrapping on overflow. -/
def hexValue (ds : List Nat) : Nat :=
  ds.foldl
    (fun (a : Nat) (b : Nat) =>
      if 48 ≤ b ∧ b ≤ 57 then (a * 16 % wordSize + (b - 48)) % wordSize
      else (a * 16 % wordSize + (10 + (b - 97))) % wordSize) 0

/-- A concrete resolver for witnesses: every token resolves to node 0 of
crate 0. -/
def sd0 : StrDef := fun _ => ⟨0, 0⟩

/-- Field name and path-segment strings used in concrete statements. -/
def strA : String := "a"

def strB : String := "b"

def strX : String := "x"

def strY : String := "y"

/-- Bytes of `"r[0|#0:a#]"`: a resource whose backreference targets the
byte range `[0, 10)` that contains the backreference itself. -/
def dataCyc : List Nat := [114, 91, 48, 124, 35, 48, 58, 97, 35, 93]

/-- Cursor over `dataCyc` covering the whole buffer. -/
def stCyc : PState := ⟨dataCyc, 0, 0, 10⟩

/-- Bytes of `"R[a=#b:1#b=n]"`: field `a` backreferences the range
`[11, 12)`, the `n` that field `b` is encoded with directly. -/
def dataShare : List Nat := [82, 91, 97, 61, 35, 98, 58, 49, 35, 98, 61, 110, 93]

/-- Bytes of `"R[x=i;y=?b;]"`, the record literal of the specification. -/
def dataRecSpec : List Nat := [82, 91, 120, 61, 105, 59, 121, 61, 63, 98, 59, 93]

/-- Bytes of `"R[x=iy=?b]"`, the record encoding the decoder accepts. -/
def dataRec : List Nat := [82, 91, 120, 61, 105, 121, 61, 63, 98, 93]

/-- Bytes of `"#5:1#n"`: a backreference to the range `[5, 6)` holding
`"n"`. -/
def dataBref : List Nat := [35, 53, 58, 49, 35, 110]

/-- Bytes of `"Nr[]:a(0|*)n"`: a native function with Rust ABI, no
arguments, a one-element constraint list and return type nil. -/
def dataNat : List Nat := [78, 114, 91, 93, 58, 97, 40, 48, 124, 42, 41, 110]

/-- Bytes of `":a(0|*;1)n"` positioned at a constraint list with one
constraint carrying a wildcard and a positional argument. -/
def dataCs : List Nat := [58, 97, 40, 48, 124, 42, 59, 49, 41, 110]

/-- The maximal run of decimal digits from the cursor position. -/
def run10 (st : PState) : List Nat := (st.data.drop st.pos).takeWhile isDigit10

/-- The maximal run of hex digits from the cursor position. -/
def runHex (st : PState) : List Nat := (st.data.drop st.pos).takeWhile isHexDigit

/-! ### Cursor-evolution and cache-preservation invariants -/

/-- Relation between the cursor before and after a successful parsing
step: the position does not decrease, the final position is within the
buffer, and the buffer, crate number and declared length are
unchanged. -/
def StOk (st st' : PState) : Prop :=
  st.pos ≤ st'.pos ∧ st'.pos ≤ st'.data.length ∧ st'.data = st.data ∧
    st'.crate = st.crate ∧ st'.len = st.len

/-- Cache preservation: every binding present before is present,
with the same handle, afterwards. -/
def CPres (c c' : Cache) : Prop :=
  ∀ k v, rcacheFind c k = some v → rcacheFind c' k = some v

theorem CPres_refl (c : Cache) : CPres c c := fun _ _ h => h

theorem CPres_trans {a b c : Cache} (h1 : CPres a b) (h2 : CPres b c) : CPres a c :=
  fun k v h => h2 k v (h1 k v h)

theorem rcacheFind_insert_self (c : Cache) (k : RKey) (t : Ty) :
    rcacheFind (rcacheInsert c k t) k = some t := by
  simp [rcacheFind, rcacheInsert]

theorem rcacheFind_insert_ne {k k' : RKey} (c : Cache) (t : Ty) (h : k ≠ k') :
    rcacheFind (rcacheInsert c k t) k' = rcacheFind c k' := by
  simp [rcacheFind, rcacheInsert, h]

theorem CPres_insert_absent {cache c1 : Cache} {k : RKey} {t : Ty}
    (hp : CPres cache c1) (habs : rcacheFind cache k = none) :
    CPres cache (rcacheInsert c1 k t) := by
  intro k' v hv
  rcases eq_or_ne k k' with rfl | hne
  · rw [habs] at hv; cases hv
  · rw [rcacheFind_insert_ne c1 t hne]; exact hp k' v hv

theorem peek_ok {st : PState} {c : Nat} (h : peek st = .ok c) :
    st.pos < st.data.length ∧ st.data.get? st.pos = some c := by
  unfold peek at h
  split at h
  · rename_i b hg
    injection h with h
    subst h
    obtain ⟨hlt, -⟩ := List.get?_eq_some.mp hg
    exact ⟨hlt, hg⟩
  · exact absurd h (by simp)

theorem next_ok {st : PState} {c : Nat} {st' : PState} (h : next st = .ok (c, st')) :
    st' = { st with pos := st.pos + 1 } ∧ st.pos < st.data.length := by
  unfold next at h
  split at h
  · rename_i b hp
    simp only [Except.ok.injEq, Prod.mk.injEq] at h
    obtain ⟨rfl, rfl⟩ := h
    exact ⟨rfl, (peek_ok hp).1⟩
  · exact absurd h (by simp)

theorem StOk_refl_of_lt {st : PState} (h : st.pos ≤ st.data.length) : StOk st st :=
  ⟨le_refl _, h, rfl, rfl, rfl⟩

theorem StOk_next {st : PState} {c : Nat} {st' : PState} (h : next st = .ok (c, st')) :
    StOk st st' := by
  obtain ⟨rfl, hlt⟩ := next_ok h
  exact ⟨Nat.le_succ _, hlt, rfl, rfl, rfl⟩

theorem StOk_trans {a b c : PState} (h1 : StOk a b) (h2 : StOk b c) : StOk a c := by
  obtain ⟨p1, l1, d1, c1, n1⟩ := h1
  obtain ⟨p2, l2, d2, c2, n2⟩ := h2
  exact ⟨le_trans p1 p2, l2, d2.trans d1, c2.trans c1, n2.trans n1⟩

theorem StOk_bump {st st' : PState} {d : Nat}
    (h : StOk { st with pos := st.pos + d } st') : StOk st st' := by
  obtain ⟨p1, l1, d1, c1, n1⟩ := h
  exact ⟨le_trans (Nat.le_add_right _ _) p1, l1, d1, c1, n1⟩

theorem StOk_peek_bump {st : PState} {c : Nat} (h : peek st = .ok c) :
    StOk st { st with pos := st.pos + 1 } :=
  ⟨Nat.le_succ _, (peek_ok h).1, rfl, rfl, rfl⟩

theorem parseIdentCore_stok {isLast : Nat → Bool} :
    ∀ {k : Nat} {st : PState} {acc s : String} {st' : PState},
      parseIdentCore isLast k st acc = .ok (s, st') → StOk st st' := by
  intro k
  induction k with
  | zero => intro st acc s st' h; simp [parseIdentCore] at h
  | succ k ih =>
    intro st acc s st' h
    rw [parseIdentCore] at h
    split at h
    · exact absurd h (by simp)
    · rename_i c hp
      split at h
      · simp only [Except.ok.injEq, Prod.mk.injEq] at h
        obtain ⟨-, rfl⟩ := h
        exact StOk_refl_of_lt (Nat.le_of_lt (peek_ok hp).1)
      · exact StOk_trans (StOk_peek_bump hp) (ih h)

theorem parse_ident__stok {isLast : Nat → Bool} {st : PState} {s : String} {st' : PState}
    (h : parse_ident_ isLast st = .ok (s, st')) : StOk st st' :=
  parseIdentCore_stok h

theorem parseIntCore_stok :
    ∀ {k : Nat} {st : PState} {n v : Int} {st' : PState},
      parseIntCore k st n = .ok (v, st') → StOk st st' := by
  intro k
  induction k with
  | zero => intro st n v st' h; simp [parseIntCore] at h
  | succ k ih =>
    intro st n v st' h
    rw [parseIntCore] at h
    split at h
    · exact absurd h (by simp)
    · rename_i c hp
      split at h
      · simp only [Except.ok.injEq, Prod.mk.injEq] at h
        obtain ⟨-, rfl⟩ := h
        exact StOk_refl_of_lt (Nat.le_of_lt (peek_ok hp).1)
      · exact StOk_trans (StOk_peek_bump hp) (ih h)

theorem parse_int_stok {st : PState} {v : Int} {st' : PState}
    (h : parse_int st = .ok (v, st')) : StOk st st' :=
  parseIntCore_stok h

theorem parseHexCore_stok :
    ∀ {k : Nat} {st : PState} {n v : Nat} {st' : PState},
      parseHexCore k st n = .ok (v, st') → StOk st st' := by
  intro k
  induction k with
  | zero => intro st n v st' h; simp [parseHexCore] at h
  | succ k ih =>
    intro st n v st' h
    rw [parseHexCore] at h
    split at h
    · exact absurd h (by simp)
    · rename_i c hp
      split at h
      · simp only [Except.ok.injEq, Prod.mk.injEq] at h
        obtain ⟨-, rfl⟩ := h
        exact StOk_refl_of_lt (Nat.le_of_lt (peek_ok hp).1)
      · exact StOk_trans (StOk_peek_bump hp) (ih h)

theorem parse_hex_stok {st : PState} {v : Nat} {st' : PState}
    (h : parse_hex st = .ok (v, st')) : StOk st st' :=
  parseHexCore_stok h

theorem parsePathCore_stok :
    ∀ {k : Nat} {st : PState} {ids : List String} {p : Path} {st' : PState},
      parsePathCore k st ids = .ok (p, st') → StOk st st' := by
  intro k
  induction k with
  | zero => intro st ids p st' h; simp [parsePathCore] at h
  | succ k ih =>
    intro st ids p st' h
    rw [parsePathCore] at h
    split at h
    · exact absurd h (by simp)
    · rename_i c hp
      split at h
      · split at h
        · exact absurd h (by simp)
        · rename_i v1 c1 st1 hn1
          split at h
          · exact absurd h (by simp)
          · rename_i v2 c2 st2 hn2
            exact StOk_trans (StOk_next hn1) (StOk_trans (StOk_next hn2) (ih h))
      · split at h
        · simp only [Except.ok.injEq, Prod.mk.injEq] at h
          obtain ⟨-, rfl⟩ := h
          exact StOk_refl_of_lt (Nat.le_of_lt (peek_ok hp).1)
        · split at h
          · exact absurd h (by simp)
          · rename_i v1 s st1 hi
            exact StOk_trans (parse_ident__stok hi) (ih h)

theorem parse_path_stok {st : PState} {p : Path} {st' : PState}
    (h : parse_path st = .ok (p, st')) : StOk st st' := by
  unfold parse_path at h
  split at h
  · exact absurd h (by simp)
  · rename_i v s st1 hi
    exact StOk_trans (parse_ident__stok hi) (parsePathCore_stok h)

theorem parseIdentCore_stop {isLast : Nat → Bool} :
    ∀ {k : Nat} {st : PState} {acc s : String} {st' : PState},
      parseIdentCore isLast k st acc = .ok (s, st') → st'.pos < st'.data.length := by
  intro k
  induction k with
  | zero => intro st acc s st' h; simp [parseIdentCore] at h
  | succ k ih =>
    intro st acc s st' h
    rw [parseIdentCore] at h
    split at h
    · exact absurd h (by simp)
    · rename_i c hp
      split at h
      · simp only [Except.ok.injEq, Prod.mk.injEq] at h
        obtain ⟨-, rfl⟩ := h
        exact (peek_ok hp).1
      · exact ih h

theorem parse_def_stok {sd : StrDef} {st : PState} {d : DefId} {st' : PState}
    (h : parse_def sd st = .ok (d, st')) : StOk st st' := by
  unfold parse_def at h
  split at h
  · exact absurd h (by simp)
  · rename_i v s st1 hi
    simp only [Except.ok.injEq, Prod.mk.injEq] at h
    obtain ⟨-, rfl⟩ := h
    obtain ⟨p1, l1, d1, c1, n1⟩ := parse_ident__stok hi
    have hstop : st1.pos < st1.data.length := parseIdentCore_stop hi
    exact ⟨le_trans p1 (Nat.le_succ _), by simp only; omega, d1, c1, n1⟩

theorem parse_constr_arg_stok {st : PState} {a : ConstrArg Nat} {st' : PState}
    (h : parse_constr_arg st = .ok (a, st')) : StOk st st' := by
  unfold parse_constr_arg at h
  split at h
  · exact absurd h (by simp)
  · rename_i c hp
    split at h
    · simp only [Except.ok.injEq, Prod.mk.injEq] at h
      obtain ⟨-, rfl⟩ := h
      exact StOk_peek_bump hp
    · split at h
      · simp only [Except.ok.injEq, Prod.mk.injEq] at h
        obtain ⟨-, rfl⟩ := h
        exact StOk_peek_bump hp
      · exact absurd h (by simp)

theorem parse_ty_constr_arg_stok {st : PState} {a : ConstrArg Path} {st' : PState}
    (h : parse_ty_constr_arg st = .ok (a, st')) : StOk st st' := by
  unfold parse_ty_constr_arg at h
  split at h
  · exact absurd h (by simp)
  · rename_i c hp
    split at h
    · simp only [Except.ok.injEq, Prod.mk.injEq] at h
      obtain ⟨-, rfl⟩ := h
      exact StOk_peek_bump hp
    · split at h
      · exact absurd h (by simp)
      · rename_i v p st1 hpath
        simp only [Except.ok.injEq, Prod.mk.injEq] at h
        obtain ⟨-, rfl⟩ := h
        exact parse_path_stok hpath

theorem parseCArgsV_stok :
    ∀ {k : Nat} {st : PState} {acc args : List (ConstrArg Nat)} {st' : PState},
      parseCArgsV k st acc = .ok (args, st') → StOk st st' := by
  intro k
  induction k with
  | zero => intro st acc args st' h; simp [parseCArgsV] at h
  | succ k ih =>
    intro st acc args st' h
    rw [parseCArgsV] at h
    split at h
    · exact absurd h (by simp)
    · rename_i v a st1 ha
      split at h
      · exact absurd h (by simp)
      · rename_i v2 ig st2 hn
        split at h
        · exact StOk_trans (parse_constr_arg_stok ha) (StOk_trans (StOk_next hn) (ih h))
        · split at h
          · simp only [Except.ok.injEq, Prod.mk.injEq] at h
            obtain ⟨-, rfl⟩ := h
            exact StOk_trans (parse_constr_arg_stok ha) (StOk_next hn)
          · exact absurd h (by simp)

theorem parseCArgsT_stok :
    ∀ {k : Nat} {st : PState} {acc args : List (ConstrArg Path)} {st' : PState},
      parseCArgsT k st acc = .ok (args, st') → StOk st st' := by
  intro k
  induction k with
  | zero => intro st acc args st' h; simp [parseCArgsT] at h
  | succ k ih =>
    intro st acc args st' h
    rw [parseCArgsT] at h
    split at h
    · exact absurd h (by simp)
    · rename_i v a st1 ha
      split at h
      · exact absurd h (by simp)
      · rename_i v2 ig st2 hn
        split at h
        · exact StOk_trans (parse_ty_constr_arg_stok ha) (StOk_trans (StOk_next hn) (ih h))
        · split at h
          · simp only [Except.ok.injEq, Prod.mk.injEq] at h
            obtain ⟨-, rfl⟩ := h
            exact StOk_trans (parse_ty_constr_arg_stok ha) (StOk_next hn)
          · exact absurd h (by simp)

theorem parse_constr_v_stok {sd : StrDef} {st : PState} {cn : Constr} {st' : PState}
    (h : parse_constr_v sd st = .ok (cn, st')) : StOk st st' := by
  unfold parse_constr_v at h
  split at h
  · exact absurd h (by simp)
  · rename_i v p st1 hpath
    split at h
    · exact absurd h (by simp)
    · rename_i v2 ig st2 hn
      split at h
      · split at h
        · exact absurd h (by simp)
        · rename_i v3 d st3 hdef
          split at h
          · exact absurd h (by simp)
          · rename_i v4 args st4 hargs
            simp only [Except.ok.injEq, Prod.mk.injEq] at h
            obtain ⟨-, rfl⟩ := h
            exact StOk_trans (parse_path_stok hpath) (StOk_trans (StOk_next hn)
              (StOk_trans (parse_def_stok hdef) (parseCArgsV_stok hargs)))
      · exact absurd h (by simp)

theorem parse_constr_t_stok {sd : StrDef} {st : PState} {cn : TyConstr} {st' : PState}
    (h : parse_constr_t sd st = .ok (cn, st')) : StOk st st' := by
  unfold parse_constr_t at h
  split at h
  · exact absurd h (by simp)
  · rename_i v p st1 hpath
    split at h
    · exact absurd h (by simp)
    · rename_i v2 ig st2 hn
      split at h
      · split at h
        · exact absurd h (by simp)
        · rename_i v3 d st3 hdef
          split at h
          · exact absurd h (by simp)
          · rename_i v4 args st4 hargs
            simp only [Except.ok.injEq, Prod.mk.injEq] at h
            obtain ⟨-, rfl⟩ := h
            exact StOk_trans (parse_path_stok hpath) (StOk_trans (StOk_next hn)
              (StOk_trans (parse_def_stok hdef) (parseCArgsT_stok hargs)))
      · exact absurd h (by simp)

theorem parseConstrsLoop_stok {sd : StrDef} :
    ∀ {k : Nat} {st : PState} {acc cs : List Constr} {st' : PState},
      parseConstrsLoop sd k st acc = .ok (cs, st') → StOk st st' := by
  intro k
  induction k with
  | zero => intro st acc cs st' h; simp [parseConstrsLoop] at h
  | succ k ih =>
    intro st acc cs st' h
    rw [parseConstrsLoop] at h
    split at h
    · exact absurd h (by simp)
    · rename_i v c1 st1 hn
      split at h
      · exact absurd h (by simp)
      · rename_i v2 one st2 hcn
        split at h
        · exact absurd h (by simp)
        · rename_i c hp
          split at h
          · exact StOk_trans (StOk_next hn) (StOk_trans (parse_constr_v_stok hcn) (ih h))
          · simp only [Except.ok.injEq, Prod.mk.injEq] at h
            obtain ⟨-, rfl⟩ := h
            exact StOk_trans (StOk_next hn) (parse_constr_v_stok hcn)

theorem parse_constrs_stok {sd : StrDef} {st : PState} {cs : List Constr} {st' : PState}
    (h : parse_constrs sd st = .ok (cs, st')) : StOk st st' := by
  unfold parse_constrs at h
  split at h
  · exact absurd h (by simp)
  · rename_i c hp
    split at h
    · exact parseConstrsLoop_stok h
    · simp only [Except.ok.injEq, Prod.mk.injEq] at h
      obtain ⟨-, rfl⟩ := h
      exact StOk_refl_of_lt (Nat.le_of_lt (peek_ok hp).1)

theorem parseTyConstrsLoop_stok {sd : StrDef} :
    ∀ {k : Nat} {st : PState} {acc cs : List TyConstr} {st' : PState},
      parseTyConstrsLoop sd k st acc = .ok (cs, st') → StOk st st' := by
  intro k
  induction k with
  | zero => intro st acc cs st' h; simp [parseTyConstrsLoop] at h
  | succ k ih =>
    intro st acc cs st' h
    rw [parseTyConstrsLoop] at h
    split at h
    · exact absurd h (by simp)
    · rename_i v c1 st1 hn
      split at h
      · exact absurd h (by simp)
      · rename_i v2 one st2 hcn
        split at h
        · exact absurd h (by simp)
        · rename_i c hp
          split at h
          · exact StOk_trans (StOk_next hn) (StOk_trans (parse_constr_t_stok hcn) (ih h))
          · simp only [Except.ok.injEq, Prod.mk.injEq] at h
            obtain ⟨-, rfl⟩ := h
            exact StOk_trans (StOk_next hn) (parse_constr_t_stok hcn)

theorem parse_ty_constrs_stok {sd : StrDef} {st : PState} {cs : List TyConstr} {st' : PState}
    (h : parse_ty_constrs sd st = .ok (cs, st')) : StOk st st' := by
  unfold parse_ty_constrs at h
  split at h
  · exact absurd h (by simp)
  · rename_i c hp
    split at h
    · exact parseTyConstrsLoop_stok h
    · simp only [Except.ok.injEq, Prod.mk.injEq] at h
      obtain ⟨-, rfl⟩ := h
      exact StOk_refl_of_lt (Nat.le_of_lt (peek_ok hp).1)

/-- Helper for the primitive arms of `parse_ty`: the result is built
directly from the post-dispatch state and the unchanged cache. -/
theorem inv_prim {st st1 : PState} {c : Nat} {x t : Ty} {cache c' : Cache} {st' : PState}
    (hnext : next st = .ok (c, st1))
    (h : (Except.ok (x, st1, cache) : Except Err (Ty × PState × Cache)) = .ok (t, st', c')) :
    StOk st st' ∧ CPres cache c' := by
  simp only [Except.ok.injEq, Prod.mk.injEq] at h
  obtain ⟨-, rfl, rfl⟩ := h
  exact ⟨StOk_next hnext, CPres_refl _⟩

/-- Combined invariant of the mutually recursive type parsers, by
induction on fuel: a successful run never moves the cursor backwards,
never escapes the buffer, never changes buffer, crate or declared
length, and never drops or overwrites a cache binding. -/
theorem parse_inv : ∀ n : Nat,
    (∀ sd st cache t st' c', parse_ty sd n st cache = .ok (t, st', c') →
      StOk st st' ∧ CPres cache c') ∧
    (∀ sd st cache acc ps st' c', parseTyParams sd n st cache acc = .ok (ps, st', c') →
      StOk st st' ∧ CPres cache c') ∧
    (∀ sd st cache acc fs st' c', parseRecFields sd n st cache acc = .ok (fs, st', c') →
      StOk st st' ∧ CPres cache c') ∧
    (∀ sd st cache acc ms st' c', parseObjMethods sd n st cache acc = .ok (ms, st', c') →
      StOk st st' ∧ CPres cache c') ∧
    (∀ sd st cache acc as' st' c', parseFnArgs sd n st cache acc = .ok (as', st', c') →
      StOk st st' ∧ CPres cache c') ∧
    (∀ sd st cache tm st' c', parse_mt sd n st cache = .ok (tm, st', c') →
      StOk st st' ∧ CPres cache c') ∧
    (∀ sd st cache tb st' c', parse_ty_or_bang sd n st cache = .ok (tb, st', c') →
      StOk st st' ∧ CPres cache c') ∧
    (∀ sd st cache fr st' c', parse_ty_fn sd n st cache = .ok (fr, st', c') →
      StOk st st' ∧ CPres cache c') := by
  intro n
  induction n with
  | zero =>
    refine ⟨?_, ?_, ?_, ?_, ?_, ?_, ?_, ?_⟩ <;>
      intros <;>
      simp_all [parse_ty, parseTyParams, parseRecFields, parseObjMethods, parseFnArgs,
        parse_mt, parse_ty_or_bang, parse_ty_fn]
  | succ n ih =>
    obtain ⟨ihTy, ihPar, ihRec, ihObj, ihArgs, ihMt, ihOb, ihFn⟩ := ih
    refine ⟨?_, ?_, ?_, ?_, ?_, ?_, ?_, ?_⟩
    -- parse_ty
    · intro sd st cache t st' c' h
      rw [parse_ty] at h
      split at h
      · exact absurd h (by simp)
      · rename_i v c st1 hnext
        split at h
        · exact inv_prim hnext h
        · exact inv_prim hnext h
        · exact inv_prim hnext h
        · exact inv_prim hnext h
        · exact inv_prim hnext h
        · exact inv_prim hnext h
        -- M
        · split at h
          · exact absurd h (by simp)
          · rename_i v2 c2 st2 hn2
            split at h
            · rename_i m hm
              simp only [Except.ok.injEq, Prod.mk.injEq] at h
              obtain ⟨-, rfl, rfl⟩ := h
              exact ⟨StOk_trans (StOk_next hnext) (StOk_next hn2), CPres_refl _⟩
            · exact absurd h (by simp)
        · exact inv_prim hnext h
        · exact inv_prim hnext h
        · exact inv_prim hnext h
        -- t
        · split at h
          · exact absurd h (by simp)
          · rename_i v2 c2 st2 hn2
            split at h
            · split at h
              · exact absurd h (by simp)
              · rename_i v3 d st3 hdef
                split at h
                · exact absurd h (by simp)
                · rename_i v4 params st4 c4 hpar
                  simp only [Except.ok.injEq, Prod.mk.injEq] at h
                  obtain ⟨-, rfl, rfl⟩ := h
                  obtain ⟨hso, hcp⟩ := ihPar sd st3 cache [] params st4 c4 hpar
                  exact ⟨StOk_trans (StOk_next hnext) (StOk_trans (StOk_next hn2)
                    (StOk_trans (parse_def_stok hdef) hso)), hcp⟩
            · exact absurd h (by simp)
        -- p
        · split at h
          · exact absurd h (by simp)
          · rename_i v2 c2 st2 hn2
            split at h
            · rename_i k hk
              split at h
              · exact absurd h (by simp)
              · rename_i v3 i st3 hint
                simp only [Except.ok.injEq, Prod.mk.injEq] at h
                obtain ⟨-, rfl, rfl⟩ := h
                exact ⟨StOk_trans (StOk_next hnext) (StOk_trans (StOk_next hn2)
                  (parse_int_stok hint)), CPres_refl _⟩
            · exact absurd h (by simp)
        -- box
        · split at h
          · exact absurd h (by simp)
          · rename_i v2 tm t2 m2 st2 c2 hmt
            simp only [Except.ok.injEq, Prod.mk.injEq] at h
            obtain ⟨-, rfl, rfl⟩ := h
            obtain ⟨hso, hcp⟩ := ihMt sd st1 cache _ st2 c2 hmt
            exact ⟨StOk_trans (StOk_next hnext) hso, hcp⟩
        -- ptr
        · split at h
          · exact absurd h (by simp)
          · rename_i v2 tm t2 m2 st2 c2 hmt
            simp only [Except.ok.injEq, Prod.mk.injEq] at h
            obtain ⟨-, rfl, rfl⟩ := h
            obtain ⟨hso, hcp⟩ := ihMt sd st1 cache _ st2 c2 hmt
            exact ⟨StOk_trans (StOk_next hnext) hso, hcp⟩
        -- vec
        · split at h
          · exact absurd h (by simp)
          · rename_i v2 tm t2 m2 st2 c2 hmt
            simp only [Except.ok.injEq, Prod.mk.injEq] at h
            obtain ⟨-, rfl, rfl⟩ := h
            obtain ⟨hso, hcp⟩ := ihMt sd st1 cache _ st2 c2 hmt
            exact ⟨StOk_trans (StOk_next hnext) hso, hcp⟩
        -- ivec
        · split at h
          · exact absurd h (by simp)
          · rename_i v2 tm t2 m2 st2 c2 hmt
            simp only [Except.ok.injEq, Prod.mk.injEq] at h
            obtain ⟨-, rfl, rfl⟩ := h
            obtain ⟨hso, hcp⟩ := ihMt sd st1 cache _ st2 c2 hmt
            exact ⟨StOk_trans (StOk_next hnext) hso, hcp⟩
        -- task
        · exact inv_prim hnext h
        -- port
        · split at h
          · exact absurd h (by simp)
          · rename_i v2 t2 st2 c2 hrec
            simp only [Except.ok.injEq, Prod.mk.injEq] at h
            obtain ⟨-, rfl, rfl⟩ := h
            obtain ⟨hso, hcp⟩ := ihTy sd st1 cache t2 st2 c2 hrec
            exact ⟨StOk_trans (StOk_next hnext) hso, hcp⟩
        -- chan
        · split at h
          · exact absurd h (by simp)
          · rename_i v2 t2 st2 c2 hrec
            simp only [Except.ok.injEq, Prod.mk.injEq] at h
            obtain ⟨-, rfl, rfl⟩ := h
            obtain ⟨hso, hcp⟩ := ihTy sd st1 cache t2 st2 c2 hrec
            exact ⟨StOk_trans (StOk_next hnext) hso, hcp⟩
        -- R
        · split at h
          · exact absurd h (by simp)
          · rename_i v2 c2 st2 hn2
            split at h
            · split at h
              · exact absurd h (by simp)
              · rename_i v3 fields st3 c3 hrec
                simp only [Except.ok.injEq, Prod.mk.injEq] at h
                obtain ⟨-, rfl, rfl⟩ := h
                obtain ⟨hso, hcp⟩ := ihRec sd st2 cache [] fields st3 c3 hrec
                exact ⟨StOk_trans (StOk_next hnext) (StOk_trans (StOk_next hn2) hso), hcp⟩
            · exact absurd h (by simp)
        -- F
        · split at h
          · exact absurd h (by simp)
          · rename_i v2 fr args rt cf cs st2 c2 hfn
            simp only [Except.ok.injEq, Prod.mk.injEq] at h
            obtain ⟨-, rfl, rfl⟩ := h
            obtain ⟨hso, hcp⟩ := ihFn sd st1 cache _ st2 c2 hfn
            exact ⟨StOk_trans (StOk_next hnext) hso, hcp⟩
        -- W
        · split at h
          · exact absurd h (by simp)
          · rename_i v2 fr args rt cf cs st2 c2 hfn
            simp only [Except.ok.injEq, Prod.mk.injEq] at h
            obtain ⟨-, rfl, rfl⟩ := h
            obtain ⟨hso, hcp⟩ := ihFn sd st1 cache _ st2 c2 hfn
            exact ⟨StOk_trans (StOk_next hnext) hso, hcp⟩
        -- B
        · split at h
          · exact absurd h (by simp)
          · rename_i v2 fr args rt cf cs st2 c2 hfn
            simp only [Except.ok.injEq, Prod.mk.injEq] at h
            obtain ⟨-, rfl, rfl⟩ := h
            obtain ⟨hso, hcp⟩ := ihFn sd st1 cache _ st2 c2 hfn
            exact ⟨StOk_trans (StOk_next hnext) hso, hcp⟩
        -- N
        · split at h
          · exact absurd h (by simp)
          · rename_i v2 c2 st2 hn2
            split at h
            · rename_i abi habi
              split at h
              · exact absurd h (by simp)
              · rename_i v3 fr args rt cf cs st3 c3 hfn
                simp only [Except.ok.injEq, Prod.mk.injEq] at h
                obtain ⟨-, rfl, rfl⟩ := h
                obtain ⟨hso, hcp⟩ := ihFn sd st2 cache _ st3 c3 hfn
                exact ⟨StOk_trans (StOk_next hnext) (StOk_trans (StOk_next hn2) hso), hcp⟩
            · exact absurd h (by simp)
        -- O
        · split at h
          · exact absurd h (by simp)
          · rename_i v2 c2 st2 hn2
            split at h
            · split at h
              · exact absurd h (by simp)
              · rename_i v3 methods st3 c3 hob
                simp only [Except.ok.injEq, Prod.mk.injEq] at h
                obtain ⟨-, rfl, rfl⟩ := h
                obtain ⟨hso, hcp⟩ := ihObj sd st2 cache [] methods st3 c3 hob
                exact ⟨StOk_trans (StOk_next hnext) (StOk_trans (StOk_next hn2) hso), hcp⟩
            · exact absurd h (by simp)
        -- r
        · split at h
          · exact absurd h (by simp)
          · rename_i v2 c2 st2 hn2
            split at h
            · split at h
              · exact absurd h (by simp)
              · rename_i v3 d st3 hdef
                split at h
                · exact absurd h (by simp)
                · rename_i v4 inner st4 c4 hin
                  split at h
                  · exact absurd h (by simp)
                  · rename_i v5 params st5 c5 hpar
                    simp only [Except.ok.injEq, Prod.mk.injEq] at h
                    obtain ⟨-, rfl, rfl⟩ := h
                    obtain ⟨hso1, hcp1⟩ := ihTy sd st3 cache inner st4 c4 hin
                    obtain ⟨hso2, hcp2⟩ := ihPar sd st4 c4 [] params st5 c5 hpar
                    exact ⟨StOk_trans (StOk_next hnext) (StOk_trans (StOk_next hn2)
                      (StOk_trans (parse_def_stok hdef) (StOk_trans hso1 hso2))),
                      CPres_trans hcp1 hcp2⟩
            · exact absurd h (by simp)
        -- X
        · split at h
          · exact absurd h (by simp)
          · rename_i v2 i st2 hint
            simp only [Except.ok.injEq, Prod.mk.injEq] at h
            obtain ⟨-, rfl, rfl⟩ := h
            exact ⟨StOk_trans (StOk_next hnext) (parse_int_stok hint), CPres_refl _⟩
        -- E
        · split at h
          · exact absurd h (by simp)
          · rename_i v2 d st2 hdef
            simp only [Except.ok.injEq, Prod.mk.injEq] at h
            obtain ⟨-, rfl, rfl⟩ := h
            exact ⟨StOk_trans (StOk_next hnext) (parse_def_stok hdef), CPres_refl _⟩
        -- Y
        · exact inv_prim hnext h
        -- backreference
        · split at h
          · exact absurd h (by simp)
          · rename_i v2 o st2 hx1
            split at h
            · exact absurd h (by simp)
            · rename_i v3 c2 st3 hn2
              split at h
              · split at h
                · exact absurd h (by simp)
                · rename_i v4 l st4 hx2
                  split at h
                  · exact absurd h (by simp)
                  · rename_i v5 c3 st5 hn3
                    split at h
                    · split at h
                      · rename_i tt hfind
                        simp only [Except.ok.injEq, Prod.mk.injEq] at h
                        obtain ⟨-, rfl, rfl⟩ := h
                        exact ⟨StOk_trans (StOk_next hnext) (StOk_trans (parse_hex_stok hx1)
                          (StOk_trans (StOk_next hn2) (StOk_trans (parse_hex_stok hx2)
                          (StOk_next hn3)))), CPres_refl _⟩
                      · rename_i hfind
                        split at h
                        · exact absurd h (by simp)
                        · rename_i v6 tt stX c1 hrec
                          simp only [Except.ok.injEq, Prod.mk.injEq] at h
                          obtain ⟨-, rfl, rfl⟩ := h
                          obtain ⟨-, hcp⟩ := ihTy sd _ cache tt stX c1 hrec
                          refine ⟨StOk_trans (StOk_next hnext) (StOk_trans (parse_hex_stok hx1)
                            (StOk_trans (StOk_next hn2) (StOk_trans (parse_hex_stok hx2)
                            (StOk_next hn3)))), ?_⟩
                          exact CPres_insert_absent hcp hfind
                    · exact absurd h (by simp)
              · exact absurd h (by simp)
        -- A
        · split at h
          · exact absurd h (by simp)
          · rename_i v2 c2 st2 hn2
            split at h
            · split at h
              · exact absurd h (by simp)
              · rename_i v3 tt st3 c3 hrec
                split at h
                · exact absurd h (by simp)
                · rename_i v4 tcs st4 htcs
                  split at h
                  · exact absurd h (by simp)
                  · rename_i v5 c4 st5 hn4
                    split at h
                    · simp only [Except.ok.injEq, Prod.mk.injEq] at h
                      obtain ⟨-, rfl, rfl⟩ := h
                      obtain ⟨hso, hcp⟩ := ihTy sd st2 cache tt st3 c3 hrec
                      exact ⟨StOk_trans (StOk_next hnext) (StOk_trans (StOk_next hn2)
                        (StOk_trans hso (StOk_trans (parse_ty_constrs_stok htcs)
                        (StOk_next hn4)))), hcp⟩
                    · exact absurd h (by simp)
            · exact absurd h (by simp)
        -- unknown tag
        · exact absurd h (by simp)
    -- parseTyParams
    · intro sd st cache acc ps st' c' h
      rw [parseTyParams] at h
      split at h
      · exact absurd h (by simp)
      · rename_i c hp
        split at h
        · simp only [Except.ok.injEq, Prod.mk.injEq] at h
          obtain ⟨-, rfl, rfl⟩ := h
          exact ⟨StOk_peek_bump hp, CPres_refl _⟩
        · split at h
          · exact absurd h (by simp)
          · rename_i v t st1 c1 hrec
            obtain ⟨hso1, hcp1⟩ := ihTy sd st cache t st1 c1 hrec
            obtain ⟨hso2, hcp2⟩ := ihPar sd st1 c1 (acc ++ [t]) ps st' c' h
            exact ⟨StOk_trans hso1 hso2, CPres_trans hcp1 hcp2⟩
    -- parseRecFields
    · intro sd st cache acc fs st' c' h
      rw [parseRecFields] at h
      split at h
      · exact absurd h (by simp)
      · rename_i c hp
        split at h
        · simp only [Except.ok.injEq, Prod.mk.injEq] at h
          obtain ⟨-, rfl, rfl⟩ := h
          exact ⟨StOk_peek_bump hp, CPres_refl _⟩
        · split at h
          · exact absurd h (by simp)
          · rename_i v name st1 hid
            split at h
            · exact absurd h (by simp)
            · rename_i v2 tm t2 m2 st2 c2 hmt
              obtain ⟨hso1, hcp1⟩ := ihMt sd _ cache _ st2 c2 hmt
              obtain ⟨hso2, hcp2⟩ := ihRec sd st2 c2 _ fs st' c' h
              exact ⟨StOk_trans (parse_ident__stok hid)
                (StOk_trans (StOk_bump hso1) hso2), CPres_trans hcp1 hcp2⟩
    -- parseObjMethods
    · intro sd st cache acc ms st' c' h
      rw [parseObjMethods] at h
      split at h
      · exact absurd h (by simp)
      · rename_i c hp
        split at h
        · simp only [Except.ok.injEq, Prod.mk.injEq] at h
          obtain ⟨-, rfl, rfl⟩ := h
          exact ⟨StOk_peek_bump hp, CPres_refl _⟩
        · split at h
          · exact absurd h (by simp)
          · rename_i v pc st1 hn
            split at h
            · rename_i proto hproto
              split at h
              · exact absurd h (by simp)
              · rename_i v2 name st2 hid
                split at h
                · exact absurd h (by simp)
                · rename_i v3 fr args rt cf cs st3 c3 hfn
                  obtain ⟨hso1, hcp1⟩ := ihFn sd st2 cache _ st3 c3 hfn
                  obtain ⟨hso2, hcp2⟩ := ihObj sd st3 c3 _ ms st' c' h
                  exact ⟨StOk_trans (StOk_next hn) (StOk_trans (parse_ident__stok hid)
                    (StOk_trans hso1 hso2)), CPres_trans hcp1 hcp2⟩
            · exact absurd h (by simp)
    -- parseFnArgs
    · intro sd st cache acc as' st' c' h
      rw [parseFnArgs] at h
      split at h
      · exact absurd h (by simp)
      · rename_i c hp
        split at h
        · simp only [Except.ok.injEq, Prod.mk.injEq] at h
          obtain ⟨-, rfl, rfl⟩ := h
          exact ⟨StOk_peek_bump hp, CPres_refl _⟩
        · split at h
          · split at h
            · exact absurd h (by simp)
            · rename_i c2 hp2
              split at h
              · split at h
                · exact absurd h (by simp)
                · rename_i v t st1 c1 hrec
                  obtain ⟨hso1, hcp1⟩ := ihTy sd _ cache t st1 c1 hrec
                  obtain ⟨hso2, hcp2⟩ := ihArgs sd st1 c1 _ as' st' c' h
                  exact ⟨StOk_trans (StOk_bump hso1) hso2, CPres_trans hcp1 hcp2⟩
              · split at h
                · exact absurd h (by simp)
                · rename_i v t st1 c1 hrec
                  obtain ⟨hso1, hcp1⟩ := ihTy sd _ cache t st1 c1 hrec
                  obtain ⟨hso2, hcp2⟩ := ihArgs sd st1 c1 _ as' st' c' h
                  exact ⟨StOk_trans (StOk_bump hso1) hso2, CPres_trans hcp1 hcp2⟩
          · split at h
            · exact absurd h (by simp)
            · rename_i v t st1 c1 hrec
              obtain ⟨hso1, hcp1⟩ := ihTy sd st cache t st1 c1 hrec
              obtain ⟨hso2, hcp2⟩ := ihArgs sd st1 c1 _ as' st' c' h
              exact ⟨StOk_trans hso1 hso2, CPres_trans hcp1 hcp2⟩
    -- parse_mt
    · intro sd st cache tm st' c' h
      rw [parse_mt] at h
      split at h
      · exact absurd h (by simp)
      · rename_i c hp
        split at h
        · split at h
          · exact absurd h (by simp)
          · rename_i v t st1 c1 hrec
            simp only [Except.ok.injEq, Prod.mk.injEq] at h
            obtain ⟨-, rfl, rfl⟩ := h
            obtain ⟨hso, hcp⟩ := ihTy sd _ cache t st1 c1 hrec
            exact ⟨StOk_bump hso, hcp⟩
        · split at h
          · split at h
            · exact absurd h (by simp)
            · rename_i v t st1 c1 hrec
              simp only [Except.ok.injEq, Prod.mk.injEq] at h
              obtain ⟨-, rfl, rfl⟩ := h
              obtain ⟨hso, hcp⟩ := ihTy sd _ cache t st1 c1 hrec
              exact ⟨StOk_bump hso, hcp⟩
          · split at h
            · exact absurd h (by simp)
            · rename_i v t st1 c1 hrec
              simp only [Except.ok.injEq, Prod.mk.injEq] at h
              obtain ⟨-, rfl, rfl⟩ := h
              exact ihTy sd st cache t st1 c1 hrec
    -- parse_ty_or_bang
    · intro sd st cache tb st' c' h
      rw [parse_ty_or_bang] at h
      split at h
      · exact absurd h (by simp)
      · rename_i c hp
        split at h
        · simp only [Except.ok.injEq, Prod.mk.injEq] at h
          obtain ⟨-, rfl, rfl⟩ := h
          exact ⟨StOk_peek_bump hp, CPres_refl _⟩
        · split at h
          · exact absurd h (by simp)
          · rename_i v t st1 c1 hrec
            simp only [Except.ok.injEq, Prod.mk.injEq] at h
            obtain ⟨-, rfl, rfl⟩ := h
            exact ihTy sd st cache t st1 c1 hrec
    -- parse_ty_fn
    · intro sd st cache fr st' c' h
      rw [parse_ty_fn] at h
      split at h
      · exact absurd h (by simp)
      · rename_i v c st1 hnext
        split at h
        · split at h
          · exact absurd h (by simp)
          · rename_i v2 inputs st2 c2 hargs
            split at h
            · exact absurd h (by simp)
            · rename_i v3 cs st3 hcs
              split at h
              · exact absurd h (by simp)
              · rename_i v4 st4 c4 hob
                simp only [Except.ok.injEq, Prod.mk.injEq] at h
                obtain ⟨-, rfl, rfl⟩ := h
                obtain ⟨hso1, hcp1⟩ := ihArgs sd st1 cache [] inputs st2 c2 hargs
                obtain ⟨hso2, hcp2⟩ := ihOb sd st3 c2 _ st4 c4 hob
                exact ⟨StOk_trans (StOk_next hnext) (StOk_trans hso1
                  (StOk_trans (parse_constrs_stok hcs) hso2)), CPres_trans hcp1 hcp2⟩
              · rename_i v4 t st4 c4 hob
                simp only [Except.ok.injEq, Prod.mk.injEq] at h
                obtain ⟨-, rfl, rfl⟩ := h
                obtain ⟨hso1, hcp1⟩ := ihArgs sd st1 cache [] inputs st2 c2 hargs
                obtain ⟨hso2, hcp2⟩ := ihOb sd st3 c2 _ st4 c4 hob
                exact ⟨StOk_trans (StOk_next hnext) (StOk_trans hso1
                  (StOk_trans (parse_constrs_stok hcs) hso2)), CPres_trans hcp1 hcp2⟩
        · exact absurd h (by simp)

/-! ### Characterisation of the numeric-literal scanners -/

theorem peek_of_lt {st : PState} (h : st.pos < st.data.length) :
    peek st = .ok (st.data.get ⟨st.pos, h⟩) := by
  simp only [peek, List.get?_eq_get h]

theorem run10_cons {st : PState} {b : Nat} (hb : peek st = .ok b) :
    run10 st =
      if isDigit10 b then b :: run10 { st with pos := st.pos + 1 } else [] := by
  obtain ⟨hlt, hg⟩ := peek_ok hb
  obtain ⟨h, hget⟩ := List.get?_eq_some.mp hg
  unfold run10
  rw [List.drop_eq_get_cons h, hget, List.takeWhile_cons]

theorem runHex_cons {st : PState} {b : Nat} (hb : peek st = .ok b) :
    runHex st =
      if isHexDigit b then b :: runHex { st with pos := st.pos + 1 } else [] := by
  obtain ⟨hlt, hg⟩ := peek_ok hb
  obtain ⟨h, hget⟩ := List.get?_eq_some.mp hg
  unfold runHex
  rw [List.drop_eq_get_cons h, hget, List.takeWhile_cons]

theorem parseIntCore_run :
    ∀ {k : Nat} (st : PState) (acc : Int),
      st.pos + (run10 st).length < st.data.length →
      (run10 st).length < k →
      parseIntCore k st acc =
        .ok ((run10 st).foldl
              (fun (a : Int) (b : Nat) => wrapInt (wrapInt (a * 10) + ((b : Int) - 48))) acc,
             { st with pos := st.pos + (run10 st).length }) := by
  intro k
  induction k with
  | zero => intro st acc hlt hk; omega
  | succ k ih =>
    intro st acc hlt hk
    have hpos : st.pos < st.data.length := lt_of_le_of_lt (Nat.le_add_right _ _) hlt
    obtain ⟨b, hb⟩ : ∃ b, peek st = .ok b := ⟨_, peek_of_lt hpos⟩
    rw [parseIntCore]; simp only [hb]
    by_cases hd : isDigit10 b
    · have hrun : run10 st = b :: run10 { st with pos := st.pos + 1 } := by
        rw [run10_cons hb, if_pos hd]
      have hlen : (run10 st).length = (run10 { st with pos := st.pos + 1 }).length + 1 := by
        rw [hrun]; rfl
      have hcond : ¬(b < 48 ∨ 57 < b) := by simp [isDigit10] at hd; omega
      rw [if_neg hcond]
      rw [ih { st with pos := st.pos + 1 } _ (by simp only; omega) (by omega)]
      rw [hrun]
      simp only [List.foldl_cons, List.length_cons, Except.ok.injEq, Prod.mk.injEq,
        PState.mk.injEq, true_and, and_true]
      omega
    · have hrun : run10 st = [] := by rw [run10_cons hb, if_neg hd]
      have hcond : b < 48 ∨ 57 < b := by simp [isDigit10] at hd; omega
      rw [if_pos hcond, hrun]
      simp

theorem parseIntCore_fault :
    ∀ {k : Nat} (st : PState) (acc : Int),
      st.data.length - st.pos < k →
      st.data.length ≤ st.pos + (run10 st).length →
      parseIntCore k st acc = .error .fault := by
  intro k
  induction k with
  | zero => intro st acc hk hend; omega
  | succ k ih =>
    intro st acc hk hend
    rcases Nat.lt_or_ge st.pos st.data.length with hpos | hpos
    · obtain ⟨b, hb⟩ : ∃ b, peek st = .ok b := ⟨_, peek_of_lt hpos⟩
      rw [parseIntCore]; simp only [hb]
      by_cases hd : isDigit10 b
      · have hrun : run10 st = b :: run10 { st with pos := st.pos + 1 } := by
          rw [run10_cons hb, if_pos hd]
        have hlen : (run10 st).length = (run10 { st with pos := st.pos + 1 }).length + 1 := by
          rw [hrun]; rfl
        have hcond : ¬(b < 48 ∨ 57 < b) := by simp [isDigit10] at hd; omega
        rw [if_neg hcond]
        exact ih { st with pos := st.pos + 1 } _ (by simp only; omega) (by simp only; omega)
      · have hrun : run10 st = [] := by rw [run10_cons hb, if_neg hd]
        rw [hrun] at hend
        simp at hend
        omega
    · rw [parseIntCore]
      unfold peek
      rw [List.get?_eq_none.mpr hpos]

theorem parseHexCore_run :
    ∀ {k : Nat} (st : PState) (acc : Nat),
      st.pos + (runHex st).length < st.data.length →
      (runHex st).length < k →
      parseHexCore k st acc =
        .ok ((runHex st).foldl
              (fun (a : Nat) (b : Nat) =>
                if 48 ≤ b ∧ b ≤ 57 then (a * 16 % wordSize + (b - 48)) % wordSize
                else (a * 16 % wordSize + (10 + (b - 97))) % wordSize) acc,
             { st with pos := st.pos + (runHex st).length }) := by
  intro k
  induction k with
  | zero => intro st acc hlt hk; omega
  | succ k ih =>
    intro st acc hlt hk
    have hpos : st.pos < st.data.length := lt_of_le_of_lt (Nat.le_add_right _ _) hlt
    obtain ⟨b, hb⟩ : ∃ b, peek st = .ok b := ⟨_, peek_of_lt hpos⟩
    rw [parseHexCore]; simp only [hb]
    by_cases hd : isHexDigit b
    · have hrun : runHex st = b :: runHex { st with pos := st.pos + 1 } := by
        rw [runHex_cons hb, if_pos hd]
      have hlen : (runHex st).length = (runHex { st with pos := st.pos + 1 }).length + 1 := by
        rw [hrun]; rfl
      have hcond : ¬((b < 48 ∨ 57 < b) ∧ (b < 97 ∨ 102 < b)) := by
        simp [isHexDigit] at hd; omega
      rw [if_neg hcond]
      rw [ih { st with pos := st.pos + 1 } _ (by simp only; omega) (by omega)]
      rw [hrun]
      simp only [List.foldl_cons, List.length_cons, Except.ok.injEq, Prod.mk.injEq,
        PState.mk.injEq, true_and, and_true]
      omega
    · have hrun : runHex st = [] := by rw [runHex_cons hb, if_neg hd]
      have hcond : (b < 48 ∨ 57 < b) ∧ (b < 97 ∨ 102 < b) := by
        simp [isHexDigit] at hd; omega
      rw [if_pos hcond, hrun]
      simp

theorem parseHexCore_fault :
    ∀ {k : Nat} (st : PState) (acc : Nat),
      st.data.length - st.pos < k →
      st.data.length ≤ st.pos + (runHex st).length →
      parseHexCore k st acc = .error .fault := by
  intro k
  induction k with
  | zero => intro st acc hk hend; omega
  | succ k ih =>
    intro st acc hk hend
    rcases Nat.lt_or_ge st.pos st.data.length with hpos | hpos
    · obtain ⟨b, hb⟩ : ∃ b, peek st = .ok b := ⟨_, peek_of_lt hpos⟩
      rw [parseHexCore]; simp only [hb]
      by_cases hd : isHexDigit b
      · have hrun : runHex st = b :: runHex { st with pos := st.pos + 1 } := by
          rw [runHex_cons hb, if_pos hd]
        have hlen : (runHex st).length = (runHex { st with pos := st.pos + 1 }).length + 1 := by
          rw [hrun]; rfl
        have hcond : ¬((b < 48 ∨ 57 < b) ∧ (b < 97 ∨ 102 < b)) := by
          simp [isHexDigit] at hd; omega
        rw [if_neg hcond]
        exact ih { st with pos := st.pos + 1 } _ (by simp only; omega) (by simp only; omega)
      · have hrun : runHex st = [] := by rw [runHex_cons hb, if_neg hd]
        rw [hrun] at hend
        simp at hend
        omega
    · rw [parseHexCore]
      unfold peek
      rw [List.get?_eq_none.mpr hpos]

/-! ### Claims -/

/-- Claim C3: each primitive literal encoding decodes, from its start,
to exactly the stated type: `"n"` to nil, `"b"` to bool, `"Mb"` to the
unsigned 8-bit machine type, `"MB"` to the signed 8-bit machine type,
`"@mi"` to a mutable box of int, `"V?b"` to a maybe-mutable vector of
bool, and `"F[i]n"` to a plain function with one by-value int argument,
an empty constraint list, normal control flow and return type nil. -/
theorem claim_C3_literal_cases :
    parse_ty_data [110] 0 0 1 sd0 [] 2 = .ok (.nil, ⟨[110], 0, 1, 1⟩, []) ∧
    parse_ty_data [98] 0 0 1 sd0 [] 2 = .ok (.bool, ⟨[98], 0, 1, 1⟩, []) ∧
    parse_ty_data [77, 98] 0 0 2 sd0 [] 2 = .ok (.mach .u8, ⟨[77, 98], 0, 2, 2⟩, []) ∧
    parse_ty_data [77, 66] 0 0 2 sd0 [] 2 = .ok (.mach .i8, ⟨[77, 66], 0, 2, 2⟩, []) ∧
    parse_ty_data [64, 109, 105] 0 0 3 sd0 [] 3 =
      .ok (.box .int .mut, ⟨[64, 109, 105], 0, 3, 3⟩, []) ∧
    parse_ty_data [86, 63, 98] 0 0 3 sd0 [] 3 =
      .ok (.vec .bool .maybe_mut, ⟨[86, 63, 98], 0, 3, 3⟩, []) ∧
    parse_ty_data [70, 91, 105, 93, 110] 0 0 5 sd0 [] 6 =
      .ok (.fn .fn [(.val, .int)] .nil .ret [], ⟨[70, 91, 105, 93, 110], 0, 5, 5⟩, []) := by
  refine ⟨rfl, rfl, rfl, rfl, rfl, rfl, ?_⟩
  simp [parse_ty_data, parse_ty, parse_ty_fn, parseFnArgs, parse_constrs, parse_ty_or_bang,
    peek, next, remFuel]

/-- Fault evaluation of the specification's record literal
`"R[x=i;y=?b;]"` at every sufficiently large fuel: after the second
field the two bytes `;]` are consumed into a field-name scan for `=`
that runs off the end of the buffer. -/
theorem recSpec_fault_aux :
    ∀ m, parse_ty sd0 (m + 5) ⟨dataRecSpec, 0, 0, 12⟩ [] = .error .fault := by
  intro m
  simp [dataRecSpec, parse_ty, parseRecFields, parse_mt, parse_ident_, parseIdentCore,
    peek, next, remFuel, emptyS, isEq]

/-- Claim C4 (counterexample): decoding `"R[x=i;y=?b;]"`, the record
literal of the specification, never yields a record — at every fuel
the decode faults or exhausts the fuel, because the record-field loop
has no `;` separator: the `;` bytes are scanned into the next field
name and the scan for `=` runs past the end of the buffer. -/
theorem claim_C4_counterexample :
    ¬ ∃ (n : Nat) (r : Ty × PState × Cache),
        parse_ty sd0 n ⟨dataRecSpec, 0, 0, 12⟩ [] = .ok r := by
  rintro ⟨n, r, h⟩
  rcases Nat.lt_or_ge n 5 with h5 | h5
  · interval_cases n <;>
      simp [dataRecSpec, parse_ty, parseRecFields, parse_mt, parse_ident_, parseIdentCore,
        peek, next, remFuel, emptyS, isEq] at h
  · obtain ⟨m, rfl⟩ : ∃ m, n = m + 5 := ⟨n - 5, by omega⟩
    rw [recSpec_fault_aux m] at h
    cases h

/-- Claim C4 (amended): record fields are encoded as juxtaposed
`name=type` pairs with no separator, so the record of the claim is
encoded `"R[x=iy=?b]"` and decodes to a record with field `x` of type
int, immutable, and field `y` of type bool, maybe-mutable; the
specification's literal `"R[x=i;y=?b;]"` faults. -/
theorem claim_C4_record_literal :
    parse_ty_data dataRec 0 0 10 sd0 [] 8 =
      .ok (.record [(strX, .int, .imm), (strY, .bool, .maybe_mut)],
           ⟨dataRec, 0, 10, 10⟩, []) ∧
    parse_ty_data dataRecSpec 0 0 12 sd0 [] 6 = .error .fault := by
  constructor
  · simp [dataRec, parse_ty_data, parse_ty, parseRecFields, parse_mt, parse_ident_,
      parseIdentCore, peek, next, remFuel, emptyS, isEq, strX, strY]
    decide
  · exact recSpec_fault_aux 1

/-- Divergence of the self-referential encoding `"r[0|#0:a#]"`: at
every fuel the decode reports fuel exhaustion, never a result and
never a fault — the fuel-free source recursion does not terminate.
The backreference key is only inserted into the cache after the
referenced range has been fully decoded, so the nested occurrence of
the same backreference misses the cache again and restarts the same
decode. -/
theorem cyc_fuel_aux : ∀ n, parse_ty sd0 n stCyc [] = .error .fuel := by
  intro n
  induction n using Nat.strong_induction_on with
  | _ n ih =>
    match n with
    | 0 => rfl
    | 1 =>
      simp [stCyc, dataCyc, parse_ty, parse_def, parse_ident_, parseIdentCore, peek, next,
        remFuel, emptyS, isDefLast]
    | (m + 2) =>
      have hm := ih m (by omega)
      simp only [stCyc, dataCyc] at hm ⊢
      simp [parse_ty, parse_def, parse_hex, parseHexCore, wordSize, parse_ident_,
        parseIdentCore, peek, next, remFuel, emptyS, isDefLast, rcacheFind, hm]

/-- Claim C2 (counterexample): the self-referential resource encoding
`"r[0|#0:a#]"` — whose backreference targets the byte range `[0, 10)`
containing the backreference itself — does not terminate: there is no
fuel bound under which the decode completes (with a result or a
fault); every run ends in fuel exhaustion, i.e. the source recursion
is unbounded.  The cache does not prevent this, because a key is
inserted only after its range has been decoded. -/
theorem claim_C2_counterexample :
    ¬ ∃ n : Nat, parse_ty sd0 n stCyc [] ≠ .error .fuel := by
  rintro ⟨n, h⟩
  exact h (cyc_fuel_aux n)

/-- Claim C2 (amended): the backreference cache memoizes completed
decodes and makes shared (DAG-shaped) references terminate: in
`"R[a=#b:1#b=n]"` the backreference of field `a` to range `[11, 12)`
misses, decodes `"n"` through a fresh cursor, inserts the key and
terminates; when the key is already cached the stored handle is
returned directly — the referenced range is not decoded again, as the
second run (primed with a different handle under the same key) shows.
A backreference whose target range contains that same backreference
diverges, since the key is inserted only after the target decode
completes. -/
theorem claim_C2_cache_sharing :
    parse_ty_data dataShare 0 0 13 sd0 [] 8 =
      .ok (.record [(strA, .nil, .imm), (strB, .nil, .imm)],
           ⟨dataShare, 0, 13, 13⟩, [((0, 11, 1), .nil)]) ∧
    parse_ty_data dataShare 0 0 13 sd0 [((0, 11, 1), .bool)] 8 =
      .ok (.record [(strA, .bool, .imm), (strB, .nil, .imm)],
           ⟨dataShare, 0, 13, 13⟩, [((0, 11, 1), .bool)]) := by
  constructor <;>
  · simp [dataShare, parse_ty_data, parse_ty, parseRecFields, parse_mt, parse_hex,
      parseHexCore, wordSize, parse_ident_, parseIdentCore, peek, next, remFuel,
      rcacheFind, rcacheInsert, emptyS, isEq, strA, strB]
    decide

/-- Claim C9 (counterexample): the declared length (`limit`) of the
cursor is never consulted by the decoder, so `position ≤ limit` is not
an invariant: decoding `"n"` with declared length 0 succeeds and leaves
the position at 1 > 0; likewise `limit ≤ length(buffer)` is not
enforced: a declared length of 5 over a 1-byte buffer decodes
successfully. -/
theorem claim_C9_counterexample :
    parse_ty sd0 2 ⟨[110], 0, 0, 0⟩ [] = .ok (.nil, ⟨[110], 0, 1, 0⟩, []) ∧
    ¬ ((1 : Nat) ≤ 0) ∧
    parse_ty sd0 2 ⟨[110], 0, 0, 5⟩ [] = .ok (.nil, ⟨[110], 0, 1, 5⟩, []) ∧
    ¬ ((5 : Nat) ≤ 1) :=
  ⟨rfl, by omega, rfl, by omega⟩

/-- Claim C9 (amended): on every successful decode the cursor position
never decreases, the final position stays within the byte buffer, and
the buffer, crate number and declared length fields are unchanged; the
declared length itself is never consulted, so `position ≤ limit` does
not hold in general (see the counterexample).  A fresh cursor over a
different sub-range is spawned only for a backreference and is
discarded afterwards. -/
theorem claim_C9_cursor_invariant :
    ∀ (sd : StrDef) (n : Nat) (st : PState) (cache : Cache) (t : Ty) (st' : PState)
      (c' : Cache),
      parse_ty sd n st cache = .ok (t, st', c') →
      st.pos ≤ st'.pos ∧ st'.pos ≤ st.data.length ∧ st'.data = st.data ∧
        st'.crate = st.crate ∧ st'.len = st.len := by
  intro sd n st cache t st' c' h
  obtain ⟨⟨h1, h2, h3, h4, h5⟩, -⟩ := (parse_inv n).1 sd st cache t st' c' h
  exact ⟨h1, h3 ▸ h2, h3, h4, h5⟩

/-- Witness for C9: the invariant instantiated on the decode of `"n"`. -/
theorem claim_C9_witness :
    parse_ty sd0 2 ⟨[110], 0, 0, 1⟩ [] = .ok (.nil, ⟨[110], 0, 1, 1⟩, []) ∧
    (0 : Nat) ≤ 1 ∧ (1 : Nat) ≤ 1 := by
  have hp : parse_ty sd0 2 ⟨[110], 0, 0, 1⟩ [] = .ok (.nil, ⟨[110], 0, 1, 1⟩, []) := rfl
  have h := claim_C9_cursor_invariant sd0 2 ⟨[110], 0, 0, 1⟩ [] .nil ⟨[110], 0, 1, 1⟩ [] hp
  exact ⟨hp, h.1, h.2.1⟩

/-- Claim C8 (counterexample): a digit run that reaches the end of the
buffer faults instead of yielding its value, and a run of zero digits
at the end of the buffer faults instead of yielding 0 — the scanners
peek past the last digit unconditionally and the out-of-bounds index
is a fault. -/
theorem claim_C8_counterexample :
    parse_int ⟨[49], 0, 0, 1⟩ = .error .fault ∧
    parse_int ⟨[], 0, 0, 0⟩ = .error .fault ∧
    parse_hex ⟨[97], 0, 0, 1⟩ = .error .fault ∧
    ¬ ∃ st', parse_int ⟨[], 0, 0, 0⟩ = .ok (0, st') := by
  refine ⟨rfl, rfl, rfl, ?_⟩
  rintro ⟨st', h⟩
  rw [show parse_int ⟨[], 0, 0, 0⟩ = .error .fault from rfl] at h
  cases h

/-- Claim C8 (amended): when a non-digit byte follows the digit run
before the end of the buffer, `parse_int` consumes exactly the maximal
run of ASCII decimal digits, accumulates its value in base 10 in
signed machine-word arithmetic (wrapping on overflow, as the source's
`int` does), and leaves the terminating byte unconsumed (a run of zero
digits yields 0); `parse_hex` does the same for the maximal run of hex
digits (`0`-`9` and lowercase `a`-`f` only) in base 16 in unsigned
machine-word arithmetic; when the run (possibly empty) extends to the
end of the buffer, both fault on the out-of-bounds peek. -/
theorem claim_C8_numeric_scanners :
    ∀ st : PState,
      (st.pos + (run10 st).length < st.data.length →
        parse_int st = .ok (decValue (run10 st),
          { st with pos := st.pos + (run10 st).length })) ∧
      (st.data.length ≤ st.pos + (run10 st).length →
        parse_int st = .error .fault) ∧
      (st.pos + (runHex st).length < st.data.length →
        parse_hex st = .ok (hexValue (runHex st),
          { st with pos := st.pos + (runHex st).length })) ∧
      (st.data.length ≤ st.pos + (runHex st).length →
        parse_hex st = .error .fault) := by
  intro st
  refine ⟨fun h => ?_, fun h => ?_, fun h => ?_, fun h => ?_⟩
  · unfold parse_int remFuel decValue
    refine parseIntCore_run st 0 h ?_
    omega
  · unfold parse_int remFuel
    refine parseIntCore_fault st 0 ?_ h
    omega
  · unfold parse_hex remFuel hexValue
    refine parseHexCore_run st 0 h ?_
    omega
  · unfold parse_hex remFuel
    refine parseHexCore_fault st 0 ?_ h
    omega

/-- Witness for C8: `"1:"` scans to 1 stopping at the colon, `"af:"`
scans to 175 stopping at the colon, `":"` is a zero-digit run yielding
0, and a digit run touching the end of the buffer faults. -/
theorem claim_C8_witness :
    parse_int ⟨[49, 58], 0, 0, 2⟩ = .ok (1, ⟨[49, 58], 0, 1, 2⟩) ∧
    parse_hex ⟨[97, 102, 58], 0, 0, 3⟩ = .ok (175, ⟨[97, 102, 58], 0, 2, 3⟩) ∧
    parse_int ⟨[58], 0, 0, 1⟩ = .ok (0, ⟨[58], 0, 0, 1⟩) ∧
    parse_hex ⟨[57], 0, 0, 1⟩ = .error .fault := by
  refine ⟨?_, ?_, ?_, ?_⟩
  · rw [(claim_C8_numeric_scanners ⟨[49, 58], 0, 0, 2⟩).1 (by decide)]; rfl
  · rw [(claim_C8_numeric_scanners ⟨[97, 102, 58], 0, 0, 3⟩).2.2.1 (by decide)]; rfl
  · rw [(claim_C8_numeric_scanners ⟨[58], 0, 0, 1⟩).1 (by decide)]; rfl
  · rw [(claim_C8_numeric_scanners ⟨[57], 0, 0, 1⟩).2.2.2 (by decide)]

/-- Claim C1: on tag `#` the decoder parses a hexadecimal offset,
consumes `:`, parses a hexadecimal length, consumes `#`, and looks up
(crate, offset, length) in the cache.  On a hit it returns the cached
handle with the cursor just past the backreference header — the
referenced range is not re-scanned and the cache is unchanged.  On a
miss it decodes a type through a fresh cursor over the same buffer at
the offset, inserts the result under the key and returns it.  Any
successful decode of the backreference leaves the key bound to the
returned handle, so decoding the same backreference again returns the
identical handle without re-decoding; and every binding present in the
cache before is present, unchanged, afterwards. -/
theorem claim_C1_backref_protocol :
    ∀ (n : Nat) (sd : StrDef) (st st1 st2 st3 st4 st5 : PState) (cache : Cache) (o l : Nat),
      next st = .ok (35, st1) →
      parse_hex st1 = .ok (o, st2) →
      next st2 = .ok (58, st3) →
      parse_hex st3 = .ok (l, st4) →
      next st4 = .ok (35, st5) →
      (∀ t, rcacheFind cache (st.crate, o, l) = some t →
        parse_ty sd (n + 1) st cache = .ok (t, st5, cache)) ∧
      (rcacheFind cache (st.crate, o, l) = none →
        parse_ty sd (n + 1) st cache =
          match parse_ty sd n ⟨st.data, st.crate, o, l⟩ cache with
          | .error e => .error e
          | .ok (tt, _, c1) => .ok (tt, st5, rcacheInsert c1 (st.crate, o, l) tt)) ∧
      (∀ t st' c', parse_ty sd (n + 1) st cache = .ok (t, st', c') →
        st' = st5 ∧ rcacheFind c' (st.crate, o, l) = some t ∧
        parse_ty sd (n + 1) st c' = .ok (t, st5, c')) ∧
      (∀ t st' c', parse_ty sd (n + 1) st cache = .ok (t, st', c') →
        ∀ k v, rcacheFind cache k = some v → rcacheFind c' k = some v) := by
  intro n sd st st1 st2 st3 st4 st5 cache o l h1 h2 h3 h4 h5
  have hstep : ∀ cc : Cache,
      parse_ty sd (n + 1) st cc =
        match rcacheFind cc (st.crate, o, l) with
        | some tt => .ok (tt, st5, cc)
        | none =>
          match parse_ty sd n ⟨st.data, st.crate, o, l⟩ cc with
          | .error e => .error e
          | .ok (tt, _, c1) => .ok (tt, st5, rcacheInsert c1 (st.crate, o, l) tt) := by
    intro cc
    rw [parse_ty]
    simp [h1, h2, h3, h4, h5]
  refine ⟨?_, ?_, ?_, ?_⟩
  · intro t hfind
    rw [hstep cache, hfind]
  · intro hnone
    rw [hstep cache, hnone]
  · intro t st' c' h
    rw [hstep cache] at h
    rcases hfind : rcacheFind cache (st.crate, o, l) with _ | tt
    · simp only [hfind] at h
      rcases hrec : parse_ty sd n ⟨st.data, st.crate, o, l⟩ cache with e | v
      · simp only [hrec] at h
        exact absurd h (by simp)
      · obtain ⟨tt, stX, c1⟩ := v
        simp only [hrec, Except.ok.injEq, Prod.mk.injEq] at h
        obtain ⟨rfl, rfl, rfl⟩ := h
        refine ⟨rfl, rcacheFind_insert_self _ _ _, ?_⟩
        rw [hstep _, rcacheFind_insert_self]
    · simp only [hfind, Except.ok.injEq, Prod.mk.injEq] at h
      obtain ⟨rfl, rfl, rfl⟩ := h
      exact ⟨rfl, hfind, by rw [hstep cache, hfind]⟩
  · intro t st' c' h k v hv
    rw [hstep cache] at h
    rcases hfind : rcacheFind cache (st.crate, o, l) with _ | tt
    · simp only [hfind] at h
      rcases hrec : parse_ty sd n ⟨st.data, st.crate, o, l⟩ cache with e | w
      · simp only [hrec] at h
        exact absurd h (by simp)
      · obtain ⟨tt, stX, c1⟩ := w
        simp only [hrec, Except.ok.injEq, Prod.mk.injEq] at h
        obtain ⟨rfl, rfl, rfl⟩ := h
        obtain ⟨-, hcp⟩ := (parse_inv n).1 sd ⟨st.data, st.crate, o, l⟩ cache tt stX c1 hrec
        exact CPres_insert_absent hcp hfind k v hv
    · simp only [hfind, Except.ok.injEq, Prod.mk.injEq] at h
      obtain ⟨rfl, rfl, rfl⟩ := h
      exact hv

/-- Witness for C1: the buffer `"#5:1#n"` — a backreference to the
range `[5, 6)` holding `"n"`.  From the empty cache the decode misses,
decodes nil through a fresh cursor and inserts the key; the key is then
bound to nil, and a second identical decode hits the cache and returns
the same handle. -/
theorem claim_C1_witness :
    parse_ty sd0 6 ⟨dataBref, 0, 0, 6⟩ [] =
      .ok (.nil, ⟨dataBref, 0, 5, 6⟩, [((0, 5, 1), .nil)]) ∧
    rcacheFind [((0, 5, 1), Ty.nil)] (0, 5, 1) = some .nil ∧
    parse_ty sd0 6 ⟨dataBref, 0, 0, 6⟩ [((0, 5, 1), .nil)] =
      .ok (.nil, ⟨dataBref, 0, 5, 6⟩, [((0, 5, 1), .nil)]) := by
  have h := claim_C1_backref_protocol 5 sd0 ⟨dataBref, 0, 0, 6⟩ ⟨dataBref, 0, 1, 6⟩
    ⟨dataBref, 0, 2, 6⟩ ⟨dataBref, 0, 3, 6⟩ ⟨dataBref, 0, 4, 6⟩ ⟨dataBref, 0, 5, 6⟩
    [] 5 1 rfl rfl rfl rfl rfl
  have h0 : parse_ty sd0 6 ⟨dataBref, 0, 0, 6⟩ [] =
      .ok (.nil, ⟨dataBref, 0, 5, 6⟩, [((0, 5, 1), .nil)]) := by
    rw [h.2.1 rfl]
    rfl
  obtain ⟨-, hfind, hsecond⟩ := h.2.2.1 _ _ _ h0
  exact ⟨h0, hfind, hsecond⟩

/-- Claim C6 (counterexample): `"Nr[]:a(0|*)n"` decodes successfully
with the final cursor position 12 — the whole buffer, including the
constraint list `":a(0|*)"` at bytes 4–10, was consumed, so a
constraint list IS consumed from the input of a native function
signature (and then discarded); had no constraint list been consumed,
the cursor could not have passed position 4. -/
theorem claim_C6_counterexample :
    parse_ty_data dataNat 0 0 12 sd0 [] 5 =
      .ok (.native_fn .rust [] .nil, ⟨dataNat, 0, 12, 12⟩, []) ∧
    parse_constrs sd0 ⟨dataNat, 0, 4, 12⟩ =
      .ok ([⟨⟨false, [strA]⟩, [.base], ⟨0, 0⟩⟩], ⟨dataNat, 0, 11, 12⟩) := by
  constructor <;>
  · simp [dataNat, parse_ty_data, parse_ty, parse_ty_fn, parseFnArgs, parse_constrs,
      parseConstrsLoop, parse_constr_v, parseCArgsV, parse_constr_arg, parse_path,
      parsePathCore, parse_ident_, parseIdentCore, parse_def, parse_ty_or_bang, peek,
      next, remFuel, abiOf, sd0, emptyS, isPathLast, isDefLast, strA]
    all_goals decide

/-- Claim C6 (amended): after tag `N` the decoder consumes exactly one
ABI sub-tag (`r`, `i`, `c`, `l` or `s`) and then a full function
signature — argument list, constraint list (consumed from the input
when a leading `:` is present, contrary to the original claim) and
return-type/control-flow — and returns a native function type carrying
the ABI, the argument list and the return type, discarding the parsed
control flow and constraints. -/
theorem claim_C6_native_fn :
    (∀ (n : Nat) (sd : StrDef) (st st1 st2 st3 : PState) (cache c3 : Cache) (c2 : Nat)
       (abi : Abi) (args : List (Mode × Ty)) (rt : Ty) (cf : ControlFlow)
       (cs : List Constr),
      next st = .ok (78, st1) →
      next st1 = .ok (c2, st2) →
      abiOf c2 = some abi →
      parse_ty_fn sd n st2 cache = .ok ((args, rt, cf, cs), st3, c3) →
      parse_ty sd (n + 1) st cache = .ok (.native_fn abi args rt, st3, c3)) ∧
    (∀ (n : Nat) (sd : StrDef) (st st1 st2 st3 st4 : PState) (cache c2 c4 : Cache)
       (inputs : List (Mode × Ty)) (cs : List Constr) (t : Ty),
      next st = .ok (91, st1) →
      parseFnArgs sd n st1 cache [] = .ok (inputs, st2, c2) →
      parse_constrs sd st2 = .ok (cs, st3) →
      parse_ty_or_bang sd n st3 c2 = .ok (.a_ty t, st4, c4) →
      parse_ty_fn sd (n + 1) st cache = .ok ((inputs, t, .ret, cs), st4, c4)) := by
  constructor
  · intro n sd st st1 st2 st3 cache c3 c2 abi args rt cf cs h1 h2 habi hfn
    rw [parse_ty]
    simp [h1, h2, habi, hfn]
  · intro n sd st st1 st2 st3 st4 cache c2 c4 inputs cs t h1 hargs hcs hob
    rw [parse_ty_fn]
    simp [h1, hargs, hcs, hob]

/-- Witness for C6: the decode of `"Nr[]:a(0|*)n"` assembled through
the amended theorem — the signature parse consumes the one-element
constraint list and the result drops it. -/
theorem claim_C6_witness :
    parse_ty sd0 5 ⟨dataNat, 0, 0, 12⟩ [] =
      .ok (.native_fn .rust [] .nil, ⟨dataNat, 0, 12, 12⟩, []) := by
  have hfn : parse_ty_fn sd0 4 ⟨dataNat, 0, 2, 12⟩ [] =
      .ok (([], .nil, .ret, [⟨⟨false, [strA]⟩, [.base], ⟨0, 0⟩⟩]),
           ⟨dataNat, 0, 12, 12⟩, []) := by
    simp [dataNat, parse_ty, parse_ty_fn, parseFnArgs, parse_constrs, parseConstrsLoop,
      parse_constr_v, parseCArgsV, parse_constr_arg, parse_path, parsePathCore,
      parse_ident_, parseIdentCore, parse_def, parse_ty_or_bang, peek, next, remFuel,
      sd0, emptyS, isPathLast, isDefLast, strA]
    all_goals decide
  exact claim_C6_native_fn.1 4 sd0 ⟨dataNat, 0, 0, 12⟩ ⟨dataNat, 0, 1, 12⟩
    ⟨dataNat, 0, 2, 12⟩ ⟨dataNat, 0, 12, 12⟩ [] [] 114 .rust [] .nil .ret
    [⟨⟨false, [strA]⟩, [.base], ⟨0, 0⟩⟩] rfl rfl rfl hfn

/-- Claim C7: a constraint list is empty, with nothing consumed, when
the next byte is not `:`; otherwise the pending `:` (or, on
repetition, `;`) is consumed and one constraint is parsed — a path,
an asserted `(`, a definition and then constraint arguments separated
by `;` until `)` — and the list repeats exactly while the byte after a
constraint is `;`.  A value-constraint argument is `*` (wildcard,
one byte) or a single decimal digit `d` decoded as positional index
`d - 48`. -/
theorem claim_C7_constraint_list :
    (∀ (sd : StrDef) (st : PState) (c : Nat),
      peek st = .ok c → c ≠ 58 → parse_constrs sd st = .ok ([], st)) ∧
    (∀ (sd : StrDef) (st st1 : PState) (cn : Constr) (c1 : Nat),
      peek st = .ok 58 →
      parse_constr_v sd { st with pos := st.pos + 1 } = .ok (cn, st1) →
      peek st1 = .ok c1 → c1 ≠ 59 →
      parse_constrs sd st = .ok ([cn], st1)) ∧
    (∀ (sd : StrDef) (k : Nat) (st st1 st2 : PState) (acc : List Constr)
       (one : Constr) (sep : Nat),
      next st = .ok (sep, st1) →
      parse_constr_v sd st1 = .ok (one, st2) →
      peek st2 = .ok 59 →
      parseConstrsLoop sd (k + 1) st acc = parseConstrsLoop sd k st2 (acc ++ [one])) ∧
    (∀ (sd : StrDef) (k : Nat) (st st1 st2 : PState) (acc : List Constr)
       (one : Constr) (sep c2 : Nat),
      next st = .ok (sep, st1) →
      parse_constr_v sd st1 = .ok (one, st2) →
      peek st2 = .ok c2 → c2 ≠ 59 →
      parseConstrsLoop sd (k + 1) st acc = .ok (acc ++ [one], st2)) ∧
    (∀ (sd : StrDef) (st st1 st2 st3 st4 st5 : PState) (p : Path) (d : DefId)
       (a1 : ConstrArg Nat),
      parse_path st = .ok (p, st1) →
      next st1 = .ok (40, st2) →
      parse_def sd st2 = .ok (d, st3) →
      parse_constr_arg st3 = .ok (a1, st4) →
      next st4 = .ok (41, st5) →
      parse_constr_v sd st = .ok (⟨p, [a1], d⟩, st5)) ∧
    (∀ (k : Nat) (st st1 st2 : PState) (acc : List (ConstrArg Nat)) (a : ConstrArg Nat),
      parse_constr_arg st = .ok (a, st1) →
      next st1 = .ok (59, st2) →
      parseCArgsV (k + 1) st acc = parseCArgsV k st2 (acc ++ [a])) ∧
    (∀ (k : Nat) (st st1 st2 : PState) (acc : List (ConstrArg Nat)) (a : ConstrArg Nat),
      parse_constr_arg st = .ok (a, st1) →
      next st1 = .ok (41, st2) →
      parseCArgsV (k + 1) st acc = .ok (acc ++ [a], st2)) ∧
    (∀ st : PState, peek st = .ok 42 →
      parse_constr_arg st = .ok (.base, { st with pos := st.pos + 1 })) ∧
    (∀ (st : PState) (c : Nat), peek st = .ok c → 48 ≤ c → c ≤ 57 →
      parse_constr_arg st = .ok (.ident (c - 48), { st with pos := st.pos + 1 })) := by
  refine ⟨?_, ?_, ?_, ?_, ?_, ?_, ?_, ?_, ?_⟩
  · intro sd st c hp hc
    unfold parse_constrs
    simp [hp, hc]
  · intro sd st st1 cn c1 hp hcn hp1 hc1
    have hn : next st = .ok (58, { st with pos := st.pos + 1 }) := by
      unfold next
      rw [hp]
    unfold parse_constrs
    rw [hp]
    simp only [reduceIte]
    unfold remFuel
    simp only [parseConstrsLoop]
    simp [hn, hcn, hp1, hc1]
  · intro sd k st st1 st2 acc one sep hn hcn hp2
    rw [parseConstrsLoop]
    simp [hn, hcn, hp2]
  · intro sd k st st1 st2 acc one sep c2 hn hcn hp2 hc2
    rw [parseConstrsLoop]
    simp [hn, hcn, hp2, hc2]
  · intro sd st st1 st2 st3 st4 st5 p d a1 hpath hn hdef ha1 hcl
    unfold parse_constr_v
    rw [hpath]
    simp only [hn, reduceIte]
    rw [hdef]
    unfold remFuel
    simp only [parseCArgsV]
    simp [ha1, hcl]
  · intro k st st1 st2 acc a ha hn
    rw [parseCArgsV]
    simp [ha, hn]
  · intro k st st1 st2 acc a ha hn
    rw [parseCArgsV]
    simp [ha, hn]
  · intro st hp
    unfold parse_constr_arg
    simp [hp]
  · intro st c hp h1 h2
    unfold parse_constr_arg
    rw [hp]
    simp only [reduceIte]
    rw [if_neg (by omega), if_pos ⟨h1, h2⟩]

/-- Witness for C7: the constraint region `":a(0|*;1)n"` decodes to one
constraint with path `a`, arguments wildcard and positional index 1,
stopping at the `n`; and the two argument forms evaluated directly. -/
theorem claim_C7_witness :
    parse_constrs sd0 ⟨dataCs, 0, 0, 10⟩ =
      .ok ([⟨⟨false, [strA]⟩, [.base, .ident 1], ⟨0, 0⟩⟩], ⟨dataCs, 0, 9, 10⟩) ∧
    parse_constr_arg ⟨dataCs, 0, 5, 10⟩ = .ok (.base, ⟨dataCs, 0, 6, 10⟩) ∧
    parse_constr_arg ⟨dataCs, 0, 7, 10⟩ = .ok (.ident 1, ⟨dataCs, 0, 8, 10⟩) := by
  refine ⟨?_, ?_, ?_⟩
  · have hcn : parse_constr_v sd0 ⟨dataCs, 0, 1, 10⟩ =
        .ok (⟨⟨false, [strA]⟩, [.base, .ident 1], ⟨0, 0⟩⟩, ⟨dataCs, 0, 9, 10⟩) := by
      simp [dataCs, parse_constr_v, parseCArgsV, parse_constr_arg, parse_path,
        parsePathCore, parse_ident_, parseIdentCore, parse_def, peek, next, remFuel,
        sd0, emptyS, isPathLast, isDefLast, strA]
      all_goals decide
    exact claim_C7_constraint_list.2.1 sd0 ⟨dataCs, 0, 0, 10⟩ ⟨dataCs, 0, 9, 10⟩
      ⟨⟨false, [strA]⟩, [.base, .ident 1], ⟨0, 0⟩⟩ 110 rfl hcn rfl (by decide)
  · exact claim_C7_constraint_list.2.2.2.2.2.2.2.1 ⟨dataCs, 0, 5, 10⟩ rfl
  · exact claim_C7_constraint_list.2.2.2.2.2.2.2.2 ⟨dataCs, 0, 7, 10⟩ 49 rfl
      (by omega) (by omega)

/-- Aux for C10: the first-colon scan of `parse_def_id` on a buffer
with no colon runs to the length. -/
theorem findIdx58_no :
    ∀ buf : List Nat, (∀ b ∈ buf, b ≠ 58) →
      buf.findIdx (fun b => b = 58) = buf.length := by
  intro buf
  induction buf with
  | nil => intro _; rfl
  | cons a l ih =>
    intro h
    rw [List.findIdx_cons]
    have ha : a ≠ 58 := h a (List.mem_cons_self a l)
    simp [ha, ih (fun b hb => h b (List.mem_cons_of_mem a hb))]

/-- Aux for C10: the first-colon scan stops at the first colon. -/
theorem findIdx58_append :
    ∀ (pre post : List Nat), (∀ b ∈ pre, b ≠ 58) →
      (pre ++ 58 :: post).findIdx (fun b => b = 58) = pre.length := by
  intro pre post
  induction pre with
  | nil => intro _; simp [List.findIdx_cons]
  | cons a l ih =>
    intro h
    rw [List.cons_append, List.findIdx_cons]
    have ha : a ≠ 58 := h a (List.mem_cons_self a l)
    simp [ha, ih (fun b hb => h b (List.mem_cons_of_mem a hb))]

/-- Claim C10: `parse_def_id` faults when the buffer holds no `:` byte;
otherwise it splits at the first `:` and parses the bytes before and
after it as base-10 unsigned integers, yielding
`{crate: first value, node: second value}`. -/
theorem claim_C10_parse_def_id :
    (∀ buf : List Nat, (∀ b ∈ buf, b ≠ 58) → parse_def_id buf = .error .fault) ∧
    (∀ pre post : List Nat, (∀ b ∈ pre, b ≠ 58) →
      parse_def_id (pre ++ 58 :: post) =
        .ok ⟨(parse_buf pre : Int), (parse_buf post : Int)⟩) := by
  constructor
  · intro buf h
    unfold parse_def_id
    rw [findIdx58_no buf h]
    simp
  · intro pre post h
    unfold parse_def_id
    rw [findIdx58_append pre post h]
    rw [if_neg (by simp)]
    have htake : (pre ++ 58 :: post).take pre.length = pre := List.take_left pre _
    have hdrop : (pre ++ 58 :: post).drop (pre.length + 1) = post := by
      rw [show pre.length + 1 = pre.length + 1 from rfl, List.drop_append]
      rfl
    rw [htake, hdrop]

/-- Witness for C10: `"1:2"` parses to crate 1, node 2; `"12"` (no
colon) faults. -/
theorem claim_C10_witness :
    parse_def_id [49, 58, 50] = .ok ⟨1, 2⟩ ∧
    parse_def_id [49, 50] = .error .fault := by
  constructor
  · rw [show ([49, 58, 50] : List Nat) = [49] ++ 58 :: [50] from rfl,
      claim_C10_parse_def_id.2 [49] [50] (by decide)]
    rfl
  · exact claim_C10_parse_def_id.1 [49, 50] (by decide)

end TyDecode

